import Mathlib

/-!
Verification development for the Daily Note Mover plugin (src/main.js).

The JavaScript source is shallowly embedded: strings are Lean `String`s,
JS numbers that can be `NaN` are `Option Int` (with `none` playing NaN
and `undefined`), the compiled "regex" is the exact sequence of
sub-patterns the source concatenates, and the vault adapter is a pure
state (list of files, list of folders) threaded through the two public
operations.
-/

namespace DNM

/-! ## JS primitive helpers -/

/-- Whitespace skipped by JS `parseInt`. -/
def isWsChar (c : Char) : Bool := c = ' ' || c = '\t' || c = '\n' || c = '\r'

/-- The regex class `\d`, i.e. exactly `[0-9]`. -/
def jsIsDigit (c : Char) : Bool := 48 ≤ c.toNat && c.toNat ≤ 57

/-- The regex class `[A-Za-z]`. -/
def jsIsAlpha (c : Char) : Bool := (65 ≤ c.toNat && c.toNat ≤ 90) || (97 ≤ c.toNat && c.toNat ≤ 122)

/-- Value of a list of decimal digit characters. -/
def digitsVal (l : List Char) : Nat := l.foldl (fun a c => a * 10 + (c.toNat - 48)) 0

/-- Body of JS `parseInt` after whitespace-stripping: optional sign, then
the maximal run of leading digits; `none` is `NaN` (no digits). -/
def jsParseIntCore : List Char → Option Int
  | [] => none
  | c :: rest =>
    if c = '-' then
      let ds := rest.takeWhile jsIsDigit
      if ds = [] then none else some (-(digitsVal ds : Int))
    else if c = '+' then
      let ds := rest.takeWhile jsIsDigit
      if ds = [] then none else some ((digitsVal ds : Int))
    else
      let ds := (c :: rest).takeWhile jsIsDigit
      if ds = [] then none else some ((digitsVal ds : Int))

/-- JS `parseInt(s, 10)`. -/
def jsParseInt (s : String) : Option Int :=
  jsParseIntCore (s.data.dropWhile isWsChar)

/-- JS `<` against a constant; comparisons with `NaN` are false. -/
def jsLt (v : Option Int) (c : Int) : Bool :=
  match v with
  | none => false
  | some x => x < c

/-- JS `>` against a constant; comparisons with `NaN` are false. -/
def jsGt (v : Option Int) (c : Int) : Bool :=
  match v with
  | none => false
  | some x => c < x

/-- JS falsiness of a possibly-`NaN`/`undefined` number: `undefined`,
`NaN` and `0` are falsy. -/
def jsFalsy (v : Option Int) : Bool :=
  match v with
  | none => true
  | some x => x = 0

/-- `listIsPre p l` : `p` is an initial segment of `l`. -/
def listIsPre : List Char → List Char → Bool
  | [], _ => true
  | _ :: _, [] => false
  | a :: as, b :: bs => (a = b) && listIsPre as bs

/-- `pat` occurs as a contiguous run somewhere in the list. -/
def listHasSub (pat : List Char) : List Char → Bool
  | [] => pat.isEmpty
  | b :: bs => listIsPre pat (b :: bs) || listHasSub pat bs

/-- JS `String.prototype.startsWith`. -/
def startsWithStr (s pre : String) : Bool := listIsPre pre.data s.data

/-- JS `s.match(pat)` for a literal pattern, as a Boolean. -/
def hasSub (s pat : String) : Bool := listHasSub pat.data s.data

/-- JS `split` on a single separator character (no limit). -/
def splitOnChar (c : Char) : List Char → List (List Char)
  | [] => [[]]
  | a :: as =>
    if a = c then [] :: splitOnChar c as
    else
      match splitOnChar c as with
      | [] => [[a]]
      | l :: ls => (a :: l) :: ls

/-- JS `cleanStr.split(separator)`.  In the source the separator variable
is either `''` (split into single characters) or the single separator
character captured from the format string. -/
def jsSplit (sep : String) (s : String) : List String :=
  match sep.data with
  | [] => s.data.map String.singleton
  | c :: _ => (splitOnChar c s.data).map List.asString

/-- Remove the first occurrence of `pat` from a character list. -/
def removeFirstSub (pat : List Char) : List Char → List Char
  | [] => []
  | a :: as =>
    if listIsPre pat (a :: as) then (a :: as).drop pat.length
    else a :: removeFirstSub pat as

/-- JS `s.replace('.md', '')`: removes only the first occurrence. -/
def replaceFirstMd (s : String) : String := (removeFirstSub ['.', 'm', 'd'] s.data).asString

/-- JS `toLowerCase` restricted to ASCII (all characters reaching it are
ASCII because the compiled patterns only admit `[A-Za-z0-9]` and the
separators). -/
def toLowerStr (s : String) : String := ⟨s.data.map Char.toLower⟩

/-- Decimal digit character of `n % 10`. -/
def digitChar10 (k : Nat) : Char :=
  match k % 10 with
  | 0 => '0' | 1 => '1' | 2 => '2' | 3 => '3' | 4 => '4'
  | 5 => '5' | 6 => '6' | 7 => '7' | 8 => '8' | _ => '9'

/-- Fuel-driven decimal rendering of a natural number (JS number-to-string
for the non-negative integers appearing in the source). -/
def natStrFuel : Nat → Nat → List Char → List Char
  | 0, _, acc => acc
  | fuel + 1, n, acc =>
    if n < 10 then digitChar10 n :: acc
    else natStrFuel fuel (n / 10) (digitChar10 n :: acc)

/-- JS `String(n)` / template interpolation of a non-negative number. -/
def natStr (n : Nat) : String := ⟨natStrFuel (n + 1) n []⟩

/-- JS `String(n).padStart(2, '0')`. -/
def pad2 (n : Nat) : String := ⟨List.replicate (2 - (natStr n).data.length) '0' ++ (natStr n).data⟩

/-- The ISO day string `${y}-${pad2 m}-${pad2 d}` built in both movers. -/
def isoOf (y m d : Nat) : String := natStr y ++ "-" ++ pad2 m ++ "-" ++ pad2 d

/-! ## Token grammar (src/main.js lines 72-85) -/

/-- Semantic field type of a format token. -/
inductive FType
  | day
  | month
  | year
deriving DecidableEq, Repr

/-- The six recognized format tokens. -/
inductive DTok
  | DD
  | MM
  | YYYY
  | YY
  | MMM
  | MMMM
deriving DecidableEq, Repr

/-- `type` attribute of the token table. -/
def tokType : DTok → FType
  | .DD => .day
  | .MM => .month
  | .YYYY => .year
  | .YY => .year
  | .MMM => .month
  | .MMMM => .month

/-- Elements of the concatenated matching pattern: `\d{2}`, `\d{4}`,
`[A-Za-z]{3}`, `[A-Za-z]{4,}` and escaped literal characters. -/
inductive RItem
  | d2
  | d4
  | al3
  | al4p
  | lit (c : Char)
deriving DecidableEq, Repr

/-- `regex` attribute of the token table. -/
def tokItem : DTok → RItem
  | .DD => .d2
  | .MM => .d2
  | .YYYY => .d4
  | .YY => .d2
  | .MMM => .al3
  | .MMMM => .al4p

/-- Source text of each token. -/
def tokStr : DTok → String
  | .DD => "DD"
  | .MM => "MM"
  | .YYYY => "YYYY"
  | .YY => "YY"
  | .MMM => "MMM"
  | .MMMM => "MMMM"

/-- Exact-key lookup `tokens[part]`. -/
def lookupTok (p : String) : Option DTok :=
  if p = "DD" then some .DD
  else if p = "MM" then some .MM
  else if p = "YYYY" then some .YYYY
  else if p = "YY" then some .YY
  else if p = "MMM" then some .MMM
  else if p = "MMMM" then some .MMMM
  else none

/-- The separator character class `[-\/]`. -/
def sepChar (c : Char) : Bool := c = '-' || c = '/'

/-- The `monthNames` object literal, in source order (the duplicate key
`'may'` carries the same value 5 both times). -/
def monthNames : List (String × Int) :=
  [("jan", 1), ("feb", 2), ("mar", 3), ("apr", 4), ("may", 5), ("jun", 6),
   ("jul", 7), ("aug", 8), ("sep", 9), ("oct", 10), ("nov", 11), ("dec", 12),
   ("january", 1), ("february", 2), ("march", 3), ("april", 4), ("may", 5), ("june", 6),
   ("july", 7), ("august", 8), ("september", 9), ("october", 10), ("november", 11),
   ("december", 12)]

/-- `monthNames[key]`: property lookup on the table. -/
def monthLookup (s : String) : Option Int :=
  (monthNames.find? (fun p => p.1 = s)).map Prod.snd

/-! ## Format compiler (getDateFormatInfo, lines 87-114) -/

/-- `format.split(/([-\/])/)`: split on `-` and `/`, keeping each
separator as its own one-character part (empty chunks included, as in JS
split with a capturing group). -/
def splitFmtAux : List Char → List Char → List String
  | [], acc => [acc.reverse.asString]
  | c :: cs, acc =>
    if sepChar c then acc.reverse.asString :: String.singleton c :: splitFmtAux cs []
    else splitFmtAux cs (c :: acc)

/-- All parts of the format string, tokens-and-separators alternating. -/
def splitFmt (s : String) : List String := splitFmtAux s.data []

/-- The compiled artifacts: the concatenated pattern (between `^` and the
trailing `\.md$`), the ordered `(token, type)` list, and the last-seen
separator (a string, `""` when no separator part occurred). -/
structure Compiled where
  items : List RItem
  parts : List DTok
  sep : String
deriving DecidableEq, Repr

/-- Escaped literal insertion of a separator part into the pattern. -/
def litItems (p : String) : List RItem := p.data.map RItem.lit

/-- One iteration of the `for (const part of formatParts)` loop: a token
part adds its sub-pattern and `(token, type)` record; a part containing a
separator character is remembered as the separator and added escaped;
anything else is skipped. -/
def compileStep (acc : Compiled) (p : String) : Compiled :=
  match lookupTok p with
  | some t => { acc with items := acc.items ++ [tokItem t], parts := acc.parts ++ [t] }
  | none =>
    if p.data.any sepChar then { acc with items := acc.items ++ litItems p, sep := p }
    else acc

/-- The compilation loop over the split format. -/
def compileFormat (fmt : String) : Compiled :=
  (splitFmt fmt).foldl compileStep ⟨[], [], ""⟩

/-- `getDateFormatInfo` on a string-valued `settings.dateFormat`:
`const format = this.settings.dateFormat || 'DD-MM-YYYY'` followed by
compilation.  (For string input nothing in the body can throw, so the
`catch` branch is unreachable here; it is modelled separately for C8.) -/
def getDateFormatInfo (fmt : String) : Compiled :=
  compileFormat (if fmt = "" then "DD-MM-YYYY" else fmt)

/-! ## The compiled pattern as a matcher

The generated regex is `^` + concatenated sub-patterns + `\.md$`, so a
test is a full-string match of the item sequence followed by the literal
`.md`.  `[A-Za-z]{4,}` may match any length `k ≥ 4` (backtracking), which
for a Boolean test is an existential over `k`. -/

/-- Match a sequence of pattern items against an entire character list. -/
def matchItems : List RItem → List Char → Bool
  | [], cs => cs.isEmpty
  | .d2 :: rest, cs =>
    ((cs.take 2).length = 2 && (cs.take 2).all jsIsDigit) && matchItems rest (cs.drop 2)
  | .d4 :: rest, cs =>
    ((cs.take 4).length = 4 && (cs.take 4).all jsIsDigit) && matchItems rest (cs.drop 4)
  | .al3 :: rest, cs =>
    ((cs.take 3).length = 3 && (cs.take 3).all jsIsAlpha) && matchItems rest (cs.drop 3)
  | .al4p :: rest, cs =>
    (List.range ((cs.takeWhile jsIsAlpha).length + 1)).any
      (fun k => decide (4 ≤ k) && matchItems rest (cs.drop k))
  | .lit c :: rest, cs =>
    match cs with
    | [] => false
    | a :: as => (a = c) && matchItems rest as

/-- `regex.test(s)` for the compiled anchored pattern `^...\.md$`. -/
def regexTest (cp : Compiled) (s : String) : Bool :=
  matchItems (cp.items ++ [.lit '.', .lit 'm', .lit 'd']) s.data

/-! ## Date parser (parseDate closure, lines 120-186) -/

/-- The per-field loop body over `parts`, consuming one segment per part
(`segments[offset]`, `offset++`).  Accumulators are the JS variables
`day`, `month`, `year` (`none` = `undefined`/`NaN`). -/
def fieldsLoop :
    List DTok → List String → Option Int → Option Int → Option Int →
      Option (Option Int × Option Int × Option Int)
  | [], _, d, m, y => some (d, m, y)
  | _ :: _, [], _, _, _ => none
  | t :: ts, seg :: segs, d, m, y =>
    match tokType t with
    | .day =>
      let v := jsParseInt seg
      if jsLt v 1 || jsGt v 31 then none else fieldsLoop ts segs v m y
    | .month =>
      if t = .MMM || t = .MMMM then
        match monthLookup (toLowerStr seg) with
        | none => none
        | some mv => fieldsLoop ts segs d (some mv) y
      else
        let v := jsParseInt seg
        if jsLt v 1 || jsGt v 12 then none else fieldsLoop ts segs d v y
    | .year =>
      let v0 := jsParseInt seg
      let v := if t = .YY then v0.map (fun x => if x < 50 then 2000 + x else 1900 + x) else v0
      if jsLt v 1000 || jsGt v 9999 then none else fieldsLoop ts segs d m v

/-- Gregorian leap year (JS `Date` uses the proleptic Gregorian rules). -/
def isLeap (y : Nat) : Bool := y % 4 = 0 && (y % 100 ≠ 0 || y % 400 = 0)

/-- Month lengths (default branch 31 is never hit for months 1-12 other
than the listed ones). -/
def daysInMonth (y m : Nat) : Nat :=
  if m = 2 then (if isLeap y then 29 else 28)
  else if m = 4 ∨ m = 6 ∨ m = 9 ∨ m = 11 then 30
  else 31

/-- Day-overflow normalization of `new Date(y, m - 1, d)` for
`1 ≤ m ≤ 12`, `d ≥ 1`: roll surplus days into following months.  Fuel
`d` is ample since each step removes at least 28 days. -/
def normDateFuel : Nat → Nat → Nat → Nat → Nat × Nat × Nat
  | 0, y, m, d => (y, m, d)
  | fuel + 1, y, m, d =>
    if daysInMonth y m < d then
      normDateFuel fuel (if m = 12 then y + 1 else y) (if m = 12 then 1 else m + 1)
        (d - daysInMonth y m)
    else (y, m, d)

/-- `new Date(y, m - 1, d)` reduced to its (year, month, day) components. -/
def normDate (y m d : Nat) : Nat × Nat × Nat := normDateFuel d y m d

/-- The final validation `new Date(year, month-1, day)` followed by the
component round-trip comparison.  The guard covers exactly the values the
loop can produce (`1 ≤ d`, `1 ≤ m ≤ 12`, `y ≥ 1000`); outside it the JS
round-trip also always fails (components are normalized into range, and
years 0-99 are reinterpreted as 1900-1999). -/
def checkCalendar (y m d : Int) : Bool :=
  if 1 ≤ d ∧ 1 ≤ m ∧ m ≤ 12 ∧ 100 ≤ y then
    decide (normDate y.toNat m.toNat d.toNat = (y.toNat, m.toNat, d.toNat))
  else false

/-- The tail of the `parseDate` closure after the loop: reject falsy
`day`/`month`/`year`, then validate the calendar date.  Returns the
(year, month, day) components of the resulting `Date`. -/
def finishParse (d m y : Option Int) : Option (Nat × Nat × Nat) :=
  if jsFalsy d || jsFalsy m || jsFalsy y then none
  else
    match d, m, y with
    | some dv, some mv, some yv =>
      if checkCalendar yv mv dv then some (yv.toNat, mv.toNat, dv.toNat) else none
    | _, _, _ => none

/-- The segment-splitting and field loop of `parseDate` (runs once the
pattern has re-matched). -/
def parseFields (cp : Compiled) (cleanStr : String) : Option (Nat × Nat × Nat) :=
  match fieldsLoop cp.parts ((jsSplit cp.sep cleanStr).filter (fun s => s ≠ "")) none none
      none with
  | none => none
  | some r => finishParse r.1 r.2.1 r.2.2

/-- `parseDate(dateStr)`: strip `.md`, re-test the pattern, split on the
separator discarding empty segments, run the field loop, reject falsy
fields, validate the calendar date; `none` is the JS `null` result. -/
def parseDate (cp : Compiled) (dateStr : String) : Option (Nat × Nat × Nat) :=
  if regexTest cp (replaceFirstMd dateStr ++ ".md") then
    parseFields cp (replaceFirstMd dateStr)
  else none

/-! ## Settings and format validation (lines 5-10, 23-27, 364-408) -/

/-- `isValidDateFormat` (lines 64-67): a non-empty string containing at
least one of the six tokens as a substring (the JS regex alternation
`(DD|MM|YYYY|YY|MMM|MMMM)` tested unanchored). -/
def isValidDateFormat (format : String) : Bool :=
  format ≠ "" &&
    (hasSub format "DD" || hasSub format "MM" || hasSub format "YYYY" ||
      hasSub format "YY" || hasSub format "MMM" || hasSub format "MMMM")

/-- The `onload` validation step (lines 23-27): an invalid persisted
format is replaced by the default before anything else runs. -/
def onloadValidateFormat (f : String) : String :=
  if isValidDateFormat f then f else "DD-MM-YYYY"

/-- The settings-tab `onChange` handler for the date-format text field
(line 386): `this.plugin.settings.dateFormat = value || 'DD-MM-YYYY'` —
only the empty string falls back to the default. -/
def settingsTabDateFormatOnChange (value : String) : String :=
  if value = "" then "DD-MM-YYYY" else value

/-! ## Vault model and the two public operations -/

/-- A candidate file as supplied by `vault.getFiles()`.  The extension is
derived from the name; `vault.rename` keeps the name (destinations always
end in the original file name) and changes only the path. -/
structure VFile where
  name : String
  path : String
deriving DecidableEq, Repr

/-- Obsidian `file.extension`: the suffix after the last dot of the name
(empty when the name has no dot; such files are never `md`). -/
def extOf (name : String) : String :=
  if name.data.any (fun c => c = '.') then
    ((name.data.reverse.takeWhile (fun c => c ≠ '.')).reverse).asString
  else ""

/-- The plugin settings object. -/
structure PSettings where
  targetFolder : String
  dateFormat : String
  useYearMonthSubfolders : Bool
  showSummaryNotification : Bool
deriving DecidableEq, Repr

/-- Vault adapter state: the files and the set of existing folders
(`adapter.exists` / `createFolder`). -/
structure Vault where
  files : List VFile
  folders : List String
deriving DecidableEq, Repr

/-- The found/moved/skipped tallies of `moveOldDailyNotes`. -/
structure MoveCounts where
  found : Nat
  moved : Nat
  skipped : Nat
deriving DecidableEq, Repr

/-- `if (!(await exists(p))) createFolder(p)`. -/
def ensureFolder (folders : List String) (p : String) : List String :=
  if p ∈ folders then folders else folders ++ [p]

/-- `` `${targetFolder}/${year}` ``. -/
def yearFolderOf (s : PSettings) (y : Nat) : String := s.targetFolder ++ "/" ++ natStr y

/-- `` `${yearFolder}/${month}` `` with the month zero-padded. -/
def monthFolderOf (s : PSettings) (y m : Nat) : String := yearFolderOf s y ++ "/" ++ pad2 m

/-- The destination path for a parsed file: year/month subfolder mode or
flat mode. -/
def destOf (s : PSettings) (y m : Nat) (name : String) : String :=
  if s.useYearMonthSubfolders then monthFolderOf s y m ++ "/" ++ name
  else s.targetFolder ++ "/" ++ name

/-- Year and month folder creation (only in subfolder mode, each only if
absent), performed before the already-archived check, as in the source. -/
def destFoldersOf (s : PSettings) (y m : Nat) (folders : List String) : List String :=
  if s.useYearMonthSubfolders then
    ensureFolder (ensureFolder folders (yearFolderOf s y)) (monthFolderOf s y m)
  else folders

/-- `vault.rename` succeeds iff no other file already occupies the
destination path (on failure the error is caught and reported per-file). -/
def renameOk (others : List VFile) (newPath : String) : Bool :=
  others.all (fun g => g.path ≠ newPath)

/-- The per-file body of the `moveOldDailyNotes` loop (lines 215-268).
`others` is every other file currently in the vault (for the rename
conflict check). -/
def processOne (s : PSettings) (cp : Compiled) (todayISO : String) (f : VFile)
    (others : List VFile) (folders : List String) (c : MoveCounts) :
    VFile × List String × MoveCounts :=
  if extOf f.name = "md" && regexTest cp f.name then
    let c1 : MoveCounts := { c with found := c.found + 1 }
    match parseDate cp (replaceFirstMd f.name) with
    | none => (f, folders, { c1 with skipped := c1.skipped + 1 })
    | some (y, m, d) =>
      if isoOf y m d ≠ todayISO then
        let folders1 := destFoldersOf s y m folders
        let newPath := destOf s y m f.name
        if startsWithStr f.path (s.targetFolder ++ "/") then
          (f, folders1, { c1 with skipped := c1.skipped + 1 })
        else if renameOk others newPath then
          ({ f with path := newPath }, folders1, { c1 with moved := c1.moved + 1 })
        else (f, folders1, c1)
      else (f, folders, { c1 with skipped := c1.skipped + 1 })
  else (f, folders, c)

/-- Sequential iteration over the `getFiles()` snapshot: `done` holds the
already-processed files (with any renames applied), `todo` the rest. -/
def moveGo (s : PSettings) (cp : Compiled) (todayISO : String) :
    List VFile → List VFile → List String → MoveCounts → Vault × MoveCounts
  | done, [], folders, c => (⟨done, folders⟩, c)
  | done, f :: todo, folders, c =>
    let r := processOne s cp todayISO f (done ++ todo) folders c
    moveGo s cp todayISO (done ++ [r.1]) todo r.2.1 r.2.2

/-- `moveOldDailyNotes` (lines 195-277): compile the format, ensure the
target folder, then scan every file.  `today` is the system date
truncated to (year, month, day). -/
def moveOldDailyNotes (s : PSettings) (today : Nat × Nat × Nat) (v : Vault) :
    Vault × MoveCounts :=
  let todayISO := isoOf today.1 today.2.1 today.2.2
  let cp := getDateFormatInfo s.dateFormat
  moveGo s cp todayISO [] v.files (ensureFolder v.folders s.targetFolder) ⟨0, 0, 0⟩

/-- The per-file body of the `relocateOldNotes` loop (lines 293-329):
same matching and parsing, but no same-day comparison and no
already-in-target check before the rename. -/
def relocOne (s : PSettings) (cp : Compiled) (f : VFile) (others : List VFile)
    (folders : List String) (moved : Nat) : VFile × List String × Nat :=
  if extOf f.name = "md" && regexTest cp f.name then
    match parseDate cp (replaceFirstMd f.name) with
    | none => (f, folders, moved)
    | some (y, m, _d) =>
      let folders1 := destFoldersOf s y m folders
      let newPath := destOf s y m f.name
      if renameOk others newPath then ({ f with path := newPath }, folders1, moved + 1)
      else (f, folders1, moved)
  else (f, folders, moved)

/-- Iteration of `relocateOldNotes` over the vault: only files whose path
lies under the fixed legacy folder are processed (the source iterates the
filtered list; processing the full list and leaving non-matching files
untouched is the same traversal). -/
def relocGo (s : PSettings) (cp : Compiled) :
    List VFile → List VFile → List String → Nat → Vault × Nat
  | done, [], folders, n => (⟨done, folders⟩, n)
  | done, f :: todo, folders, n =>
    if startsWithStr f.path "Old Daily Notes/" then
      let r := relocOne s cp f (done ++ todo) folders n
      relocGo s cp (done ++ [r.1]) todo r.2.1 r.2.2
    else relocGo s cp (done ++ [f]) todo folders n

/-- `relocateOldNotes` (lines 279-335). -/
def relocateOldNotes (s : PSettings) (v : Vault) : Vault × Nat :=
  relocGo s (getDateFormatInfo s.dateFormat) [] v.files
    (ensureFolder v.folders s.targetFolder) 0

/-! ## The compiler's error recovery (lines 189-192), for C8

`getDateFormatInfo` throws only when `settings.dateFormat` is a truthy
non-string value (then `format.split` raises a TypeError).  Its `catch`
evaluates `this.getDateFormatInfo('DD-MM-YYYY')`, but the method declares
no parameter, so the argument is discarded and the re-invocation reads
the same `this.settings.dateFormat` again.  The call is modelled with a
stack-depth fuel; `none` means the recursion never returns a value. -/

/-- A JS value stored in `settings.dateFormat`: a string, or a non-string
(e.g. a number persisted in data.json). -/
inductive JsVal
  | str (s : String)
  | numVal (n : Nat)
deriving DecidableEq, Repr

/-- JS truthiness of such a value. -/
def jsValTruthy : JsVal → Bool
  | .str s => s ≠ ""
  | .numVal n => n ≠ 0

/-- A call to `getDateFormatInfo` with the given remaining stack depth.
A falsy value is replaced by `'DD-MM-YYYY'` before use; a truthy
non-string throws in `format.split`, and the catch re-invokes the method
(its `'DD-MM-YYYY'` argument is dropped — there is no parameter) on the
unchanged settings value. -/
def getDateFormatInfoCall : Nat → JsVal → Option Compiled
  | 0, _ => none
  | fuel + 1, v =>
    match v with
    | .str s => some (getDateFormatInfo s)
    | .numVal n =>
      if jsValTruthy (.numVal n) then getDateFormatInfoCall fuel (.numVal n)
      else some (getDateFormatInfo "DD-MM-YYYY")

/-! ## Rendering dates in a format (statement apparatus for C3/C4)

These definitions express the claim's quantification over "valid format
strings built from the token grammar" and "date strings rendered in that
format"; they are not part of the source embedding. -/

/-- English three-letter month abbreviation. -/
def monthAbbr : Nat → String
  | 1 => "Jan" | 2 => "Feb" | 3 => "Mar" | 4 => "Apr" | 5 => "May" | 6 => "Jun"
  | 7 => "Jul" | 8 => "Aug" | 9 => "Sep" | 10 => "Oct" | 11 => "Nov" | 12 => "Dec"
  | _ => ""

/-- Full English month name. -/
def monthFull : Nat → String
  | 1 => "January" | 2 => "February" | 3 => "March" | 4 => "April"
  | 5 => "May" | 6 => "June" | 7 => "July" | 8 => "August"
  | 9 => "September" | 10 => "October" | 11 => "November" | 12 => "December"
  | _ => ""

/-- Render one field of (y, m, d) through a token. -/
def renderTok (y m d : Nat) : DTok → String
  | .DD => pad2 d
  | .MM => pad2 m
  | .YYYY => natStr y
  | .YY => pad2 (y % 100)
  | .MMM => monthAbbr m
  | .MMMM => monthFull m

/-- Join strings with a separator between consecutive elements. -/
def joinSep (sep : String) : List String → String
  | [] => ""
  | [x] => x
  | x :: xs => x ++ sep ++ joinSep sep xs

/-- A format string built from the token grammar: tokens joined by one
separator character. -/
def fmtOfToks (toks : List DTok) (sep : Char) : String :=
  joinSep (String.singleton sep) (toks.map tokStr)

/-- The date string rendering (y, m, d) in that format. -/
def renderDate (toks : List DTok) (sep : Char) (y m d : Nat) : String :=
  joinSep (String.singleton sep) (toks.map (renderTok y m d))

/-- Chunks interleaved with singleton-separator parts, the shape
`format.split(/([-\/])/)` takes on a well-formed format. -/
def interleaveSep (sep : Char) : List String → List String
  | [] => []
  | [x] => [x]
  | x :: xs => x :: String.singleton sep :: interleaveSep sep xs

/-- The pattern items compilation produces for tokens joined by `sep`. -/
def itemsOfToks (sep : Char) : List DTok → List RItem
  | [] => []
  | [t] => [tokItem t]
  | t :: ts => tokItem t :: .lit sep :: itemsOfToks sep ts

/-- A vault file list is settled for (s, cp, todayISO) when every file
the archive pass would try to move is already under the target folder or
its destination is occupied by a file under the target folder.  One
archive pass always settles the vault, and a settled vault yields no
further moves. -/
def settled (s : PSettings) (cp : Compiled) (todayISO : String) (fs : List VFile) : Prop :=
  ∀ f ∈ fs, ∀ y m d : Nat,
    (extOf f.name = "md" && regexTest cp f.name) = true →
    parseDate cp (replaceFirstMd f.name) = some (y, m, d) →
    isoOf y m d ≠ todayISO →
    startsWithStr f.path (s.targetFolder ++ "/") = true ∨
      ∃ g ∈ fs, g.path = destOf s y m f.name

/-! # Lemmas -/

/-! ## List/string utilities -/

theorem listIsPre_append (p r : List Char) : listIsPre p (p ++ r) = true := by
  induction p with
  | nil => rfl
  | cons a as ih => simp [listIsPre, ih]

theorem startsWithStr_of_data (s pre : String) (h : ∃ r, s.data = pre.data ++ r) :
    startsWithStr s pre = true := by
  obtain ⟨r, hr⟩ := h
  unfold startsWithStr
  rw [hr]
  exact listIsPre_append _ _

theorem data_slash : ("/" : String).data = ['/'] := rfl

theorem data_md : (".md" : String).data = ['.', 'm', 'd'] := rfl

theorem destOf_startsWith (s : PSettings) (y m : Nat) (name : String) :
    startsWithStr (destOf s y m name) (s.targetFolder ++ "/") = true := by
  apply startsWithStr_of_data
  unfold destOf monthFolderOf yearFolderOf
  by_cases hm : s.useYearMonthSubfolders <;>
    simp [hm, String.data_append, data_slash, List.append_assoc]

/-! ## Decimal rendering -/

theorem digitChar10_isDigit (k : Nat) : jsIsDigit (digitChar10 k) = true := by
  unfold digitChar10
  have h : k % 10 < 10 := Nat.mod_lt _ (by norm_num)
  set r := k % 10 with hr
  interval_cases r <;> decide

theorem digitChar10_toNat (k : Nat) : (digitChar10 k).toNat = 48 + k % 10 := by
  unfold digitChar10
  have h : k % 10 < 10 := Nat.mod_lt _ (by norm_num)
  set r := k % 10 with hr
  interval_cases r <;> decide

theorem natStrFuel_acc (n : Nat) : ∀ (f : Nat) (acc : List Char), n < f →
    natStrFuel f n acc = natStrFuel (n + 1) n [] ++ acc := by
  induction n using Nat.strong_induction_on with
  | _ n ih =>
    intro f acc hf
    match f, hf with
    | f + 1, hf =>
      by_cases h10 : n < 10
      · simp [natStrFuel, h10]
      · have hdiv : n / 10 < n := Nat.div_lt_self (by omega) (by omega)
        have hfuel : n / 10 < f := by omega
        rw [natStrFuel, if_neg h10, ih (n / 10) hdiv f _ hfuel]
        conv_rhs =>
          rw [natStrFuel, if_neg h10, ih (n / 10) hdiv n _ (by omega)]
        simp

theorem natStr_data_lt {n : Nat} (h : n < 10) : (natStr n).data = [digitChar10 n] := by
  simp [natStr, natStrFuel, h]

theorem natStr_data_ge {n : Nat} (h : 10 ≤ n) :
    (natStr n).data = (natStr (n / 10)).data ++ [digitChar10 n] := by
  have hdiv : n / 10 < n := Nat.div_lt_self (by omega) (by omega)
  show natStrFuel (n + 1) n [] = natStrFuel (n / 10 + 1) (n / 10) [] ++ [digitChar10 n]
  rw [natStrFuel, if_neg (by omega : ¬n < 10), natStrFuel_acc (n / 10) n _ (by omega)]

theorem digitsVal_append_one (l : List Char) (c : Char) :
    digitsVal (l ++ [c]) = digitsVal l * 10 + (c.toNat - 48) := by
  unfold digitsVal
  rw [List.foldl_append]
  rfl

theorem natStr_spec (n : Nat) :
    (natStr n).data.all jsIsDigit = true ∧ digitsVal (natStr n).data = n ∧
      (natStr n).data ≠ [] := by
  induction n using Nat.strong_induction_on with
  | _ n ih =>
    by_cases h10 : n < 10
    · rw [natStr_data_lt h10]
      refine ⟨by simp [digitChar10_isDigit], ?_, by simp⟩
      simp [digitsVal, digitChar10_toNat]
      omega
    · have hdiv : n / 10 < n := Nat.div_lt_self (by omega) (by omega)
      obtain ⟨ha, hv, hne⟩ := ih (n / 10) hdiv
      rw [natStr_data_ge (by omega)]
      refine ⟨?_, ?_, by simp⟩
      · simp only [List.all_append, ha, List.all_cons, List.all_nil,
          digitChar10_isDigit, Bool.and_self]
      · rw [digitsVal_append_one, hv, digitChar10_toNat]
        omega

theorem natStr_len2 {n : Nat} (h1 : 10 ≤ n) (h2 : n < 100) : (natStr n).data.length = 2 := by
  rw [natStr_data_ge h1, natStr_data_lt (by omega : n / 10 < 10)]
  simp

theorem natStr_len4 {n : Nat} (h1 : 1000 ≤ n) (h2 : n < 10000) :
    (natStr n).data.length = 4 := by
  have e1 : (natStr n).data = (natStr (n / 10)).data ++ [digitChar10 n] :=
    natStr_data_ge (by omega)
  have e2 : (natStr (n / 10)).data = (natStr (n / 10 / 10)).data ++ [digitChar10 (n / 10)] :=
    natStr_data_ge (by omega)
  have e3 : (natStr (n / 10 / 10)).data.length = 2 := natStr_len2 (by omega) (by omega)
  rw [e1, e2]
  simp [e3]

theorem pad2_data_lt {n : Nat} (h : n < 10) : (pad2 n).data = ['0', digitChar10 n] := by
  show List.replicate (2 - (natStr n).data.length) '0' ++ (natStr n).data = _
  rw [natStr_data_lt h]
  rfl

theorem pad2_data_ge {n : Nat} (h1 : 10 ≤ n) (h2 : n < 100) :
    (pad2 n).data = [digitChar10 (n / 10), digitChar10 n] := by
  show List.replicate (2 - (natStr n).data.length) '0' ++ (natStr n).data = _
  rw [natStr_len2 h1 h2, natStr_data_ge h1, natStr_data_lt (by omega : n / 10 < 10)]
  rfl

theorem pad2_spec {n : Nat} (h : n < 100) :
    (pad2 n).data.length = 2 ∧ (pad2 n).data.all jsIsDigit = true ∧
      digitsVal (pad2 n).data = n := by
  by_cases h10 : n < 10
  · rw [pad2_data_lt h10]
    refine ⟨rfl, by simp [digitChar10_isDigit]; decide, ?_⟩
    simp [digitsVal, digitChar10_toNat]
    omega
  · rw [pad2_data_ge (by omega) h]
    refine ⟨rfl, by simp [digitChar10_isDigit], ?_⟩
    simp [digitsVal, digitChar10_toNat]
    omega

/-! # Character classes and jsParseInt -/

theorem char_eq_false_of_class {c x : Char} {p : Char → Bool} (h : p c = true)
    (hx : p x = false) : decide (c = x) = false := by
  simp only [decide_eq_false_iff_not]
  intro he
  subst he
  rw [h] at hx
  exact Bool.noConfusion hx

theorem isDigit_char_facts {c : Char} (h : jsIsDigit c = true) :
    isWsChar c = false ∧ decide (c = '-') = false ∧ decide (c = '+') = false ∧
      sepChar c = false ∧ decide (c = '.') = false ∧ jsIsAlpha c = false := by
  refine ⟨?_, ?_, ?_, ?_, ?_, ?_⟩
  · unfold isWsChar
    rw [char_eq_false_of_class h (by decide), char_eq_false_of_class h (by decide),
      char_eq_false_of_class h (by decide), char_eq_false_of_class h (by decide)]
    rfl
  · exact char_eq_false_of_class h (by decide)
  · exact char_eq_false_of_class h (by decide)
  · unfold sepChar
    rw [char_eq_false_of_class h (by decide), char_eq_false_of_class h (by decide)]
    rfl
  · exact char_eq_false_of_class h (by decide)
  · unfold jsIsDigit at h
    unfold jsIsAlpha
    simp only [Bool.and_eq_true, decide_eq_true_eq] at h
    simp only [Bool.or_eq_false_iff, Bool.and_eq_false_iff, decide_eq_false_iff_not]
    omega

theorem isAlpha_char_facts {c : Char} (h : jsIsAlpha c = true) :
    isWsChar c = false ∧ decide (c = '-') = false ∧ decide (c = '+') = false ∧
      sepChar c = false ∧ decide (c = '.') = false ∧ jsIsDigit c = false := by
  refine ⟨?_, ?_, ?_, ?_, ?_, ?_⟩
  · unfold isWsChar
    rw [char_eq_false_of_class h (by decide), char_eq_false_of_class h (by decide),
      char_eq_false_of_class h (by decide), char_eq_false_of_class h (by decide)]
    rfl
  · exact char_eq_false_of_class h (by decide)
  · exact char_eq_false_of_class h (by decide)
  · unfold sepChar
    rw [char_eq_false_of_class h (by decide), char_eq_false_of_class h (by decide)]
    rfl
  · exact char_eq_false_of_class h (by decide)
  · unfold jsIsAlpha at h
    unfold jsIsDigit
    simp only [Bool.or_eq_true, Bool.and_eq_true, decide_eq_true_eq] at h
    simp only [Bool.and_eq_false_iff, decide_eq_false_iff_not]
    omega

theorem jsParseInt_digits (s : String) (h1 : s.data.all jsIsDigit = true)
    (h2 : s.data ≠ []) : jsParseInt s = some ((digitsVal s.data : Nat) : Int) := by
  unfold jsParseInt
  match hd : s.data, h1, h2 with
  | c :: rest, h1, _ =>
    simp only [List.all_cons, Bool.and_eq_true] at h1
    obtain ⟨hc, hrest⟩ := h1
    have hf := isDigit_char_facts hc
    have htw : (c :: rest).takeWhile jsIsDigit = c :: rest := by
      rw [List.takeWhile_eq_self_iff]
      intro a ha
      rcases List.mem_cons.1 ha with h | h
      · exact h ▸ hc
      · exact List.all_eq_true.1 hrest a h
    rw [List.dropWhile_cons, if_neg (by rw [hf.1]; exact Bool.noConfusion), jsParseIntCore,
      if_neg (by intro he; rw [he] at hf; simp at hf), if_neg (by intro he; rw [he] at hf; simp at hf),
      htw, if_neg (by simp)]

theorem jsParseInt_natStr (n : Nat) : jsParseInt (natStr n) = some (n : Int) := by
  obtain ⟨ha, hv, hne⟩ := natStr_spec n
  rw [jsParseInt_digits _ ha hne, hv]

theorem jsParseInt_pad2 {n : Nat} (h : n < 100) : jsParseInt (pad2 n) = some (n : Int) := by
  obtain ⟨_, ha, hv⟩ := pad2_spec h
  have hne : (pad2 n).data ≠ [] := by
    by_cases h10 : n < 10
    · rw [pad2_data_lt h10]; simp
    · rw [pad2_data_ge (by omega) h]; simp
  rw [jsParseInt_digits _ ha hne, hv]

/-! ## Matcher lemmas -/

theorem matchItems_lit_cons (c : Char) (rest : List RItem) (cs : List Char) :
    matchItems (.lit c :: rest) (c :: cs) = matchItems rest cs := by
  simp [matchItems]

theorem matchItems_d2_chunk {l : List Char} (hlen : l.length = 2)
    (hall : l.all jsIsDigit = true) {rest : List RItem} {cs : List Char}
    (hm : matchItems rest cs = true) : matchItems (.d2 :: rest) (l ++ cs) = true := by
  have ht : (l ++ cs).take 2 = l := by rw [← hlen, List.take_left]
  have hd : (l ++ cs).drop 2 = cs := by rw [← hlen, List.drop_left]
  simp [matchItems, ht, hd, hlen, hall, hm]

theorem matchItems_d4_chunk {l : List Char} (hlen : l.length = 4)
    (hall : l.all jsIsDigit = true) {rest : List RItem} {cs : List Char}
    (hm : matchItems rest cs = true) : matchItems (.d4 :: rest) (l ++ cs) = true := by
  have ht : (l ++ cs).take 4 = l := by rw [← hlen, List.take_left]
  have hd : (l ++ cs).drop 4 = cs := by rw [← hlen, List.drop_left]
  simp [matchItems, ht, hd, hlen, hall, hm]

theorem matchItems_al3_chunk {l : List Char} (hlen : l.length = 3)
    (hall : l.all jsIsAlpha = true) {rest : List RItem} {cs : List Char}
    (hm : matchItems rest cs = true) : matchItems (.al3 :: rest) (l ++ cs) = true := by
  have ht : (l ++ cs).take 3 = l := by rw [← hlen, List.take_left]
  have hd : (l ++ cs).drop 3 = cs := by rw [← hlen, List.drop_left]
  simp [matchItems, ht, hd, hlen, hall, hm]

theorem takeWhile_append_stop {p : Char → Bool} {l cs : List Char}
    (hall : l.all p = true)
    (hcs : cs = [] ∨ ∃ c0 cs0, cs = c0 :: cs0 ∧ p c0 = false) :
    (l ++ cs).takeWhile p = l := by
  induction l with
  | nil =>
    rcases hcs with h | ⟨c0, cs0, hc, hp⟩
    · simp [h]
    · simp [hc, List.takeWhile_cons, hp]
  | cons a as ih =>
    simp only [List.all_cons, Bool.and_eq_true] at hall
    simp [List.takeWhile_cons, hall.1, ih hall.2]

theorem matchItems_al4p_chunk {l : List Char} (h4 : 4 ≤ l.length)
    (hall : l.all jsIsAlpha = true) {rest : List RItem} {cs : List Char}
    (hcs : cs = [] ∨ ∃ c0 cs0, cs = c0 :: cs0 ∧ jsIsAlpha c0 = false)
    (hm : matchItems rest cs = true) : matchItems (.al4p :: rest) (l ++ cs) = true := by
  have htw : (l ++ cs).takeWhile jsIsAlpha = l := takeWhile_append_stop hall hcs
  show (List.range (((l ++ cs).takeWhile jsIsAlpha).length + 1)).any
      (fun k => decide (4 ≤ k) && matchItems rest ((l ++ cs).drop k)) = true
  rw [htw]
  refine List.any_eq_true.mpr ⟨l.length, List.mem_range.mpr (Nat.lt_succ_self _), ?_⟩
  rw [List.drop_left]
  simp [h4, hm]

/-! ## Splitter lemmas -/

theorem splitOnChar_no_sep (c : Char) (l : List Char) (h : ∀ a ∈ l, a ≠ c) :
    splitOnChar c l = [l] := by
  induction l with
  | nil => rfl
  | cons a as ih =>
    have ha : a ≠ c := h a (List.mem_cons_self _ _)
    rw [splitOnChar, if_neg ha, ih (fun x hx => h x (List.mem_cons_of_mem _ hx))]

theorem splitOnChar_chunk (c : Char) (ch rest : List Char) (h : ∀ a ∈ ch, a ≠ c) :
    splitOnChar c (ch ++ c :: rest) = ch :: splitOnChar c rest := by
  induction ch with
  | nil => simp [splitOnChar]
  | cons a as ih =>
    have ha : a ≠ c := h a (List.mem_cons_self _ _)
    rw [List.cons_append, splitOnChar, if_neg ha,
      ih (fun x hx => h x (List.mem_cons_of_mem _ hx))]

theorem removeFirstSub_of_no_dot (l : List Char) (h : ∀ a ∈ l, a ≠ '.') :
    removeFirstSub ['.', 'm', 'd'] l = l := by
  induction l with
  | nil => rfl
  | cons a as ih =>
    have ha : a ≠ '.' := h a (List.mem_cons_self _ _)
    have hpre : listIsPre ['.', 'm', 'd'] (a :: as) = false := by
      show (decide ('.' = a) && listIsPre ['m', 'd'] as) = false
      rw [decide_eq_false (fun he => ha he.symm)]
      rfl
    rw [removeFirstSub, if_neg (by rw [hpre]; exact Bool.noConfusion),
      ih (fun x hx => h x (List.mem_cons_of_mem _ hx))]

/-! ## Format-splitting and compilation lemmas -/

theorem splitFmtAux_no_sep (l : List Char) (h : ∀ c ∈ l, sepChar c = false) :
    ∀ acc, splitFmtAux l acc = [(acc.reverse ++ l).asString] := by
  induction l with
  | nil => intro acc; simp [splitFmtAux]
  | cons c cs ih =>
    intro acc
    have hc : sepChar c = false := h c (List.mem_cons_self _ _)
    rw [splitFmtAux, if_neg (by rw [hc]; exact Bool.noConfusion),
      ih (fun x hx => h x (List.mem_cons_of_mem _ hx))]
    simp

theorem splitFmtAux_chunk (sep : Char) (hsep : sepChar sep = true) (ch : List Char)
    (h : ∀ c ∈ ch, sepChar c = false) :
    ∀ (rest : List Char) (acc : List Char),
      splitFmtAux (ch ++ sep :: rest) acc =
        (acc.reverse ++ ch).asString :: String.singleton sep :: splitFmtAux rest [] := by
  induction ch with
  | nil =>
    intro rest acc
    rw [List.nil_append, splitFmtAux, if_pos hsep]
    simp
  | cons c cs ih =>
    intro rest acc
    have hc : sepChar c = false := h c (List.mem_cons_self _ _)
    rw [List.cons_append, splitFmtAux, if_neg (by rw [hc]; exact Bool.noConfusion),
      ih (fun x hx => h x (List.mem_cons_of_mem _ hx))]
    simp

theorem lookupTok_tokStr (t : DTok) : lookupTok (tokStr t) = some t := by
  cases t <;> decide

theorem lookupTok_singleton_sep {sep : Char} (hsep : sep = '-' ∨ sep = '/') :
    lookupTok (String.singleton sep) = none := by
  rcases hsep with h | h <;> subst h <;> decide

theorem tokStr_no_sep (t : DTok) : ∀ c ∈ (tokStr t).data, sepChar c = false := by
  cases t <;> decide

theorem tokStr_ne_empty (t : DTok) : (tokStr t).data ≠ [] := by
  cases t <;> decide

theorem data_asString (s : String) : (s.data).asString = s := rfl

theorem data_singleton (c : Char) : (String.singleton c).data = [c] := rfl

theorem joinSep_cons_cons (sep x y : String) (xs : List String) :
    joinSep sep (x :: y :: xs) = x ++ sep ++ joinSep sep (y :: xs) := rfl

theorem splitFmt_joinSep {sep : Char} (hsep : sepChar sep = true) :
    ∀ chunks : List String, chunks ≠ [] →
      (∀ ch ∈ chunks, ∀ c ∈ ch.data, sepChar c = false) →
      splitFmt (joinSep (String.singleton sep) chunks) = interleaveSep sep chunks := by
  intro chunks
  induction chunks with
  | nil => intro h; exact absurd rfl h
  | cons x xs ih =>
    intro _ hno
    cases xs with
    | nil =>
      show splitFmtAux x.data [] = [x]
      rw [splitFmtAux_no_sep x.data (hno x (List.mem_cons_self _ _)) []]
      simp [data_asString]
    | cons y rest =>
      rw [joinSep_cons_cons, show interleaveSep sep (x :: y :: rest) =
        x :: String.singleton sep :: interleaveSep sep (y :: rest) from rfl]
      show splitFmtAux (x ++ String.singleton sep ++ joinSep (String.singleton sep) (y :: rest)).data [] = _
      rw [String.data_append, String.data_append, data_singleton, List.append_assoc,
        List.singleton_append,
        splitFmtAux_chunk sep hsep x.data (hno x (List.mem_cons_self _ _))]
      have hrec := ih (List.cons_ne_nil y rest) (fun ch hch => hno ch (List.mem_cons_of_mem _ hch))
      rw [List.reverse_nil, List.nil_append, data_asString,
        show splitFmtAux (joinSep (String.singleton sep) (y :: rest)).data [] =
          splitFmt (joinSep (String.singleton sep) (y :: rest)) from rfl, hrec]

theorem compileStep_of_tok (acc : Compiled) (p : String) (t : DTok)
    (h : lookupTok p = some t) :
    compileStep acc p = ⟨acc.items ++ [tokItem t], acc.parts ++ [t], acc.sep⟩ := by
  unfold compileStep
  rw [h]

theorem compileStep_of_sep (acc : Compiled) (p : String) (h1 : lookupTok p = none)
    (h2 : p.data.any sepChar = true) :
    compileStep acc p = ⟨acc.items ++ litItems p, acc.parts, p⟩ := by
  unfold compileStep
  rw [h1]
  simp [h2]

theorem sepChar_of_or {sep : Char} (hsep : sep = '-' ∨ sep = '/') : sepChar sep = true := by
  rcases hsep with h | h <;> subst h <;> decide

theorem foldl_compileStep_interleave {sep : Char} (hsep : sep = '-' ∨ sep = '/') :
    ∀ (toks : List DTok) (acc : Compiled), toks ≠ [] →
      (interleaveSep sep (toks.map tokStr)).foldl compileStep acc =
        ⟨acc.items ++ itemsOfToks sep toks, acc.parts ++ toks,
          if toks.length ≤ 1 then acc.sep else String.singleton sep⟩ := by
  intro toks
  induction toks with
  | nil => intro acc h; exact absurd rfl h
  | cons t ts ih =>
    intro acc _
    cases ts with
    | nil =>
      show compileStep acc (tokStr t) = _
      rw [compileStep_of_tok acc _ t (lookupTok_tokStr t)]
      simp [itemsOfToks]
    | cons t' ts' =>
      show (tokStr t :: String.singleton sep ::
          interleaveSep sep (tokStr t' :: ts'.map tokStr)).foldl compileStep acc = _
      rw [List.foldl_cons, List.foldl_cons,
        compileStep_of_tok acc _ t (lookupTok_tokStr t),
        compileStep_of_sep _ _ (lookupTok_singleton_sep hsep)
          (by rw [data_singleton, List.any_cons, sepChar_of_or hsep]; rfl)]
      have := ih ⟨(acc.items ++ [tokItem t]) ++ litItems (String.singleton sep),
        acc.parts ++ [t], String.singleton sep⟩ (by simp)
      rw [show interleaveSep sep (tokStr t' :: ts'.map tokStr) =
          interleaveSep sep ((t' :: ts').map tokStr) from rfl, this]
      have hlit : litItems (String.singleton sep) = [RItem.lit sep] := rfl
      have hitems : itemsOfToks sep (t :: t' :: ts') =
          tokItem t :: RItem.lit sep :: itemsOfToks sep (t' :: ts') := rfl
      simp only [hlit, hitems, List.append_assoc, List.singleton_append, List.cons_append,
        List.nil_append, Compiled.mk.injEq]
      refine ⟨trivial, trivial, ?_⟩
      have hlen : ¬(t :: t' :: ts').length ≤ 1 := by simp
      rw [if_neg hlen]
      by_cases h1 : (t' :: ts').length ≤ 1 <;> simp [h1]

theorem fmtOfToks_ne_empty (t : DTok) (ts : List DTok) (sep : Char) :
    fmtOfToks (t :: ts) sep ≠ "" := by
  cases ts with
  | nil =>
    show tokStr t ≠ ""
    intro h
    exact tokStr_ne_empty t (congrArg String.data h)
  | cons t' ts' =>
    show tokStr t ++ String.singleton sep ++ joinSep _ _ ≠ ""
    intro h
    have hd := congrArg String.data h
    rw [String.data_append, String.data_append] at hd
    rcases List.append_eq_nil.1 (List.append_eq_nil.1 hd).1 with ⟨h1, _⟩
    exact tokStr_ne_empty t h1

theorem two_le_length_of_types {toks : List DTok}
    (h1 : ∃ t ∈ toks, tokType t = FType.day) (h2 : ∃ t ∈ toks, tokType t = FType.month) :
    2 ≤ toks.length := by
  obtain ⟨a, ha, hta⟩ := h1
  obtain ⟨b, hb, htb⟩ := h2
  match toks, ha, hb with
  | [x], ha, hb =>
    rw [List.mem_singleton] at ha hb
    subst ha
    subst hb
    rw [hta] at htb
    exact absurd htb (by decide)
  | x :: x' :: l, _, _ => simp

theorem getDateFormatInfo_fmtOfToks {sep : Char} (hsep : sep = '-' ∨ sep = '/')
    {toks : List DTok} (h2 : 2 ≤ toks.length) :
    getDateFormatInfo (fmtOfToks toks sep) =
      ⟨itemsOfToks sep toks, toks, String.singleton sep⟩ := by
  match toks, h2 with
  | t :: ts, h2 =>
    rw [getDateFormatInfo, if_neg (fmtOfToks_ne_empty t ts sep), compileFormat,
      show fmtOfToks (t :: ts) sep =
        joinSep (String.singleton sep) ((t :: ts).map tokStr) from rfl,
      splitFmt_joinSep (sepChar_of_or hsep) ((t :: ts).map tokStr) (by simp)
        (by
          intro ch hch
          rcases List.mem_map.1 hch with ⟨u, _, hu⟩
          exact hu ▸ tokStr_no_sep u),
      foldl_compileStep_interleave hsep (t :: ts) _ (List.cons_ne_nil t ts)]
    have hlen : ¬(t :: ts).length ≤ 1 := by
      simp only [List.length_cons] at h2 ⊢
      omega
    rw [if_neg hlen]
    simp

/-! ## Month-name facts -/

theorem monthAbbr_facts {m : Nat} (h1 : 1 ≤ m) (h2 : m ≤ 12) :
    (monthAbbr m).data.length = 3 ∧ (monthAbbr m).data.all jsIsAlpha = true ∧
      monthLookup (toLowerStr (monthAbbr m)) = some (m : Int) ∧ (monthAbbr m).data ≠ [] := by
  interval_cases m <;> exact ⟨rfl, by decide, by decide, by decide⟩

theorem monthFull_lookup {m : Nat} (h1 : 1 ≤ m) (h2 : m ≤ 12) :
    (monthFull m).data.all jsIsAlpha = true ∧
      monthLookup (toLowerStr (monthFull m)) = some (m : Int) ∧ (monthFull m).data ≠ [] := by
  interval_cases m <;> exact ⟨by decide, by decide, by decide⟩

theorem monthFull_len4 {m : Nat} (h1 : 1 ≤ m) (h2 : m ≤ 12) (h5 : m ≠ 5) :
    4 ≤ (monthFull m).data.length := by
  interval_cases m <;> first | decide | exact absurd rfl h5

/-! ## Calendar normalization -/

theorem daysInMonth_le31 (y m : Nat) : daysInMonth y m ≤ 31 := by
  unfold daysInMonth
  split_ifs <;> omega

theorem normDateFuel_of_le {y m d : Nat} (h : d ≤ daysInMonth y m) :
    ∀ fuel, normDateFuel fuel y m d = (y, m, d) := by
  intro fuel
  cases fuel with
  | zero => rfl
  | succ f => rw [normDateFuel, if_neg (by omega)]

theorem normDate_of_le {y m d : Nat} (h : d ≤ daysInMonth y m) :
    normDate y m d = (y, m, d) := normDateFuel_of_le h d

theorem checkCalendar_natCast {y m d : Nat} (hd1 : 1 ≤ d) (hm1 : 1 ≤ m) (hm2 : m ≤ 12)
    (hy : 100 ≤ y) (hdm : d ≤ daysInMonth y m) :
    checkCalendar (y : Int) (m : Int) (d : Int) = true := by
  unfold checkCalendar
  rw [if_pos (by refine ⟨?_, ?_, ?_, ?_⟩ <;> omega)]
  simp only [Int.toNat_ofNat]
  exact decide_eq_true (normDate_of_le hdm)

/-! ## Field-loop equations and helpers -/

theorem jsLt_some (x c : Int) : jsLt (some x) c = decide (x < c) := rfl

theorem jsGt_some (x c : Int) : jsGt (some x) c = decide (c < x) := rfl

theorem jsFalsy_some (x : Int) : jsFalsy (some x) = decide (x = 0) := rfl

theorem fieldsLoop_DD (ts : List DTok) (segs : List String) (d0 m0 y0 : Option Int)
    (seg : String) :
    fieldsLoop (DTok.DD :: ts) (seg :: segs) d0 m0 y0 =
      if jsLt (jsParseInt seg) 1 || jsGt (jsParseInt seg) 31 then none
      else fieldsLoop ts segs (jsParseInt seg) m0 y0 := rfl

theorem fieldsLoop_MM (ts : List DTok) (segs : List String) (d0 m0 y0 : Option Int)
    (seg : String) :
    fieldsLoop (DTok.MM :: ts) (seg :: segs) d0 m0 y0 =
      if jsLt (jsParseInt seg) 1 || jsGt (jsParseInt seg) 12 then none
      else fieldsLoop ts segs d0 (jsParseInt seg) y0 := rfl

theorem fieldsLoop_YYYY (ts : List DTok) (segs : List String) (d0 m0 y0 : Option Int)
    (seg : String) :
    fieldsLoop (DTok.YYYY :: ts) (seg :: segs) d0 m0 y0 =
      if jsLt (jsParseInt seg) 1000 || jsGt (jsParseInt seg) 9999 then none
      else fieldsLoop ts segs d0 m0 (jsParseInt seg) := rfl

theorem fieldsLoop_YY (ts : List DTok) (segs : List String) (d0 m0 y0 : Option Int)
    (seg : String) :
    fieldsLoop (DTok.YY :: ts) (seg :: segs) d0 m0 y0 =
      if jsLt ((jsParseInt seg).map (fun x => if x < 50 then 2000 + x else 1900 + x)) 1000 ||
          jsGt ((jsParseInt seg).map (fun x => if x < 50 then 2000 + x else 1900 + x)) 9999
        then none
      else fieldsLoop ts segs d0 m0
        ((jsParseInt seg).map (fun x => if x < 50 then 2000 + x else 1900 + x)) := rfl

theorem fieldsLoop_MMM (ts : List DTok) (segs : List String) (d0 m0 y0 : Option Int)
    (seg : String) :
    fieldsLoop (DTok.MMM :: ts) (seg :: segs) d0 m0 y0 =
      match monthLookup (toLowerStr seg) with
      | none => none
      | some mv => fieldsLoop ts segs d0 (some mv) y0 := rfl

theorem fieldsLoop_MMMM (ts : List DTok) (segs : List String) (d0 m0 y0 : Option Int)
    (seg : String) :
    fieldsLoop (DTok.MMMM :: ts) (seg :: segs) d0 m0 y0 =
      match monthLookup (toLowerStr seg) with
      | none => none
      | some mv => fieldsLoop ts segs d0 (some mv) y0 := rfl

/-! ## Matching a rendered date -/

theorem joinSep_data_cons_cons (sep : Char) (x : String) (l : List String) (h : l ≠ []) :
    (joinSep (String.singleton sep) (x :: l)).data =
      x.data ++ sep :: (joinSep (String.singleton sep) l).data := by
  cases l with
  | nil => exact absurd rfl h
  | cons y rest =>
    rw [joinSep_cons_cons, String.data_append, String.data_append, data_singleton,
      List.append_assoc, List.singleton_append]

theorem matchItems_render_tok (t : DTok) {y m d : Nat} (hd1 : 1 ≤ d) (hd2 : d ≤ 31)
    (hm1 : 1 ≤ m) (hm2 : m ≤ 12) (hy1 : 1000 ≤ y) (hy2 : y ≤ 9999)
    (hM : t = DTok.MMMM → m ≠ 5) {rest : List RItem} {cs : List Char}
    (hcs : ∃ c0 cs0, cs = c0 :: cs0 ∧ jsIsAlpha c0 = false)
    (hm : matchItems rest cs = true) :
    matchItems (tokItem t :: rest) ((renderTok y m d t).data ++ cs) = true := by
  cases t with
  | DD =>
    obtain ⟨hl, ha, _⟩ := pad2_spec (show d < 100 by omega)
    exact matchItems_d2_chunk hl ha hm
  | MM =>
    obtain ⟨hl, ha, _⟩ := pad2_spec (show m < 100 by omega)
    exact matchItems_d2_chunk hl ha hm
  | YYYY =>
    exact matchItems_d4_chunk (natStr_len4 hy1 (by omega)) (natStr_spec y).1 hm
  | YY =>
    obtain ⟨hl, ha, _⟩ := pad2_spec (show y % 100 < 100 from Nat.mod_lt _ (by norm_num))
    exact matchItems_d2_chunk hl ha hm
  | MMM =>
    obtain ⟨hl, ha, _, _⟩ := monthAbbr_facts hm1 hm2
    exact matchItems_al3_chunk hl ha hm
  | MMMM =>
    obtain ⟨ha, _, _⟩ := monthFull_lookup hm1 hm2
    exact matchItems_al4p_chunk (monthFull_len4 hm1 hm2 (hM rfl)) ha (Or.inr hcs) hm

theorem matchItems_render_toks {y m d : Nat} (hd1 : 1 ≤ d) (hd2 : d ≤ 31) (hm1 : 1 ≤ m)
    (hm2 : m ≤ 12) (hy1 : 1000 ≤ y) (hy2 : y ≤ 9999) {sep : Char}
    (hsep : sep = '-' ∨ sep = '/') :
    ∀ toks : List DTok, toks ≠ [] → (DTok.MMMM ∈ toks → m ≠ 5) →
      ∀ (tail : List RItem) (cs : List Char),
        (∃ c0 cs0, cs = c0 :: cs0 ∧ jsIsAlpha c0 = false) →
        matchItems tail cs = true →
        matchItems (itemsOfToks sep toks ++ tail)
          ((joinSep (String.singleton sep) (toks.map (renderTok y m d))).data ++ cs) =
            true := by
  intro toks
  induction toks with
  | nil => intro h; exact absurd rfl h
  | cons t ts ih =>
    intro _ hM tail cs hcs hm
    cases ts with
    | nil =>
      show matchItems (tokItem t :: tail) ((renderTok y m d t).data ++ cs) = true
      exact matchItems_render_tok t hd1 hd2 hm1 hm2 hy1 hy2
        (fun he => hM (he ▸ List.mem_cons_self _ _)) hcs hm
    | cons t' ts' =>
      rw [show itemsOfToks sep (t :: t' :: ts') =
          tokItem t :: RItem.lit sep :: itemsOfToks sep (t' :: ts') from rfl,
        show (t :: t' :: ts').map (renderTok y m d) =
          renderTok y m d t :: (t' :: ts').map (renderTok y m d) from rfl,
        joinSep_data_cons_cons sep _ _ (by simp), List.append_assoc, List.cons_append]
      refine matchItems_render_tok t hd1 hd2 hm1 hm2 hy1 hy2
        (fun he => hM (he ▸ List.mem_cons_self _ _)) ⟨sep, _, rfl, ?_⟩ ?_
      · rcases hsep with h | h <;> subst h <;> decide
      · show matchItems (RItem.lit sep :: (itemsOfToks sep (t' :: ts') ++ tail))
            (sep ::
              ((joinSep (String.singleton sep) ((t' :: ts').map (renderTok y m d))).data ++
                cs)) = true
        rw [matchItems_lit_cons]
        exact ih (List.cons_ne_nil t' ts') (fun hmem => hM (List.mem_cons_of_mem _ hmem))
          tail cs hcs hm

/-! ## Splitting a rendered date on the separator -/

theorem splitOnChar_joinSep (sep : Char) :
    ∀ chunks : List String, chunks ≠ [] →
      (∀ ch ∈ chunks, ∀ c ∈ ch.data, c ≠ sep) →
      splitOnChar sep (joinSep (String.singleton sep) chunks).data =
        chunks.map String.data := by
  intro chunks
  induction chunks with
  | nil => intro h; exact absurd rfl h
  | cons x xs ih =>
    intro _ hno
    cases xs with
    | nil =>
      show splitOnChar sep x.data = [x.data]
      exact splitOnChar_no_sep sep x.data (hno x (List.mem_cons_self _ _))
    | cons y rest =>
      rw [joinSep_cons_cons, String.data_append, String.data_append, data_singleton,
        List.append_assoc, List.singleton_append,
        splitOnChar_chunk sep x.data _ (hno x (List.mem_cons_self _ _)),
        show splitOnChar sep (joinSep (String.singleton sep) (y :: rest)).data =
          splitOnChar sep (joinSep (String.singleton sep) (y :: rest)).data from rfl,
        ih (List.cons_ne_nil y rest) (fun ch hch => hno ch (List.mem_cons_of_mem _ hch))]
      rfl

/-! ## The field loop on a rendered date -/

theorem fieldsLoop_render {y m d : Nat} (hd1 : 1 ≤ d) (hd2 : d ≤ 31) (hm1 : 1 ≤ m)
    (hm2 : m ≤ 12) (hy1 : 1000 ≤ y) (hy2 : y ≤ 9999) :
    ∀ toks : List DTok, (DTok.YY ∈ toks → 1950 ≤ y ∧ y ≤ 2049) →
      ∀ d0 m0 y0 : Option Int,
        fieldsLoop toks (toks.map (renderTok y m d)) d0 m0 y0 =
          some
            ((if toks.any (fun t => decide (tokType t = FType.day)) then some (d : Int)
                else d0),
             (if toks.any (fun t => decide (tokType t = FType.month)) then some (m : Int)
                else m0),
             (if toks.any (fun t => decide (tokType t = FType.year)) then some (y : Int)
                else y0)) := by
  intro toks
  induction toks with
  | nil =>
    intro _ d0 m0 y0
    simp [fieldsLoop]
  | cons t ts ih =>
    intro hYY d0 m0 y0
    have ihYY : DTok.YY ∈ ts → 1950 ≤ y ∧ y ≤ 2049 :=
      fun h => hYY (List.mem_cons_of_mem _ h)
    cases t with
    | DD =>
      rw [List.map_cons, fieldsLoop_DD,
        show renderTok y m d DTok.DD = pad2 d from rfl,
        jsParseInt_pad2 (show d < 100 by omega), jsLt_some, jsGt_some,
        decide_eq_false (by omega : ¬((d : Int) < 1)),
        decide_eq_false (by omega : ¬((31 : Int) < (d : Int))), if_neg (by simp),
        ih ihYY (some (d : Int)) m0 y0]
      by_cases h : ts.any (fun t => decide (tokType t = FType.day)) = true <;>
        simp [List.any_cons, tokType, h]
    | MM =>
      rw [List.map_cons, fieldsLoop_MM,
        show renderTok y m d DTok.MM = pad2 m from rfl,
        jsParseInt_pad2 (show m < 100 by omega), jsLt_some, jsGt_some,
        decide_eq_false (by omega : ¬((m : Int) < 1)),
        decide_eq_false (by omega : ¬((12 : Int) < (m : Int))), if_neg (by simp),
        ih ihYY d0 (some (m : Int)) y0]
      by_cases h : ts.any (fun t => decide (tokType t = FType.month)) = true <;>
        simp [List.any_cons, tokType, h]
    | YYYY =>
      rw [List.map_cons, fieldsLoop_YYYY,
        show renderTok y m d DTok.YYYY = natStr y from rfl,
        jsParseInt_natStr, jsLt_some, jsGt_some,
        decide_eq_false (by omega : ¬((y : Int) < 1000)),
        decide_eq_false (by omega : ¬((9999 : Int) < (y : Int))), if_neg (by simp),
        ih ihYY d0 m0 (some (y : Int))]
      by_cases h : ts.any (fun t => decide (tokType t = FType.year)) = true <;>
        simp [List.any_cons, tokType, h]
    | YY =>
      have hw := hYY (List.mem_cons_self _ _)
      have hval : (some ((y % 100 : Nat) : Int)).map
          (fun x => if x < 50 then 2000 + x else 1900 + x) = some (y : Int) := by
        show some (if ((y % 100 : Nat) : Int) < 50 then 2000 + ((y % 100 : Nat) : Int)
          else 1900 + ((y % 100 : Nat) : Int)) = some (y : Int)
        by_cases h50 : ((y % 100 : Nat) : Int) < 50
        · rw [if_pos h50]
          exact congrArg some (by omega)
        · rw [if_neg h50]
          exact congrArg some (by omega)
      rw [List.map_cons, fieldsLoop_YY,
        show renderTok y m d DTok.YY = pad2 (y % 100) from rfl,
        jsParseInt_pad2 (show y % 100 < 100 from Nat.mod_lt _ (by norm_num)), hval,
        jsLt_some, jsGt_some, decide_eq_false (by omega : ¬((y : Int) < 1000)),
        decide_eq_false (by omega : ¬((9999 : Int) < (y : Int))), if_neg (by simp),
        ih ihYY d0 m0 (some (y : Int))]
      by_cases h : ts.any (fun t => decide (tokType t = FType.year)) = true <;>
        simp [List.any_cons, tokType, h]
    | MMM =>
      obtain ⟨_, _, hlk, _⟩ := monthAbbr_facts hm1 hm2
      rw [List.map_cons, fieldsLoop_MMM,
        show renderTok y m d DTok.MMM = monthAbbr m from rfl, hlk]
      show fieldsLoop ts (ts.map (renderTok y m d)) d0 (some (m : Int)) y0 = _
      rw [ih ihYY d0 (some (m : Int)) y0]
      by_cases h : ts.any (fun t => decide (tokType t = FType.month)) = true <;>
        simp [List.any_cons, tokType, h]
    | MMMM =>
      obtain ⟨_, hlk, _⟩ := monthFull_lookup hm1 hm2
      rw [List.map_cons, fieldsLoop_MMMM,
        show renderTok y m d DTok.MMMM = monthFull m from rfl, hlk]
      show fieldsLoop ts (ts.map (renderTok y m d)) d0 (some (m : Int)) y0 = _
      rw [ih ihYY d0 (some (m : Int)) y0]
      by_cases h : ts.any (fun t => decide (tokType t = FType.month)) = true <;>
        simp [List.any_cons, tokType, h]

/-! ## Rendered chunks: character classes -/

theorem all_or_of_left {p q : Char → Bool} {l : List Char} (h : l.all p = true) :
    l.all (fun c => p c || q c) = true := by
  rw [List.all_eq_true] at h ⊢
  intro c hc
  rw [h c hc]
  rfl

theorem all_or_of_right {p q : Char → Bool} {l : List Char} (h : l.all q = true) :
    l.all (fun c => p c || q c) = true := by
  rw [List.all_eq_true] at h ⊢
  intro c hc
  rw [h c hc]
  simp

theorem pad2_all (n : Nat) : (pad2 n).data.all jsIsDigit = true ∧ (pad2 n).data ≠ [] := by
  obtain ⟨ha, _, hne⟩ := natStr_spec n
  show (List.replicate (2 - (natStr n).data.length) '0' ++ (natStr n).data).all jsIsDigit =
      true ∧ _
  constructor
  · rw [List.all_append, ha, Bool.and_true]
    rw [List.all_eq_true]
    intro c hc
    rw [List.eq_of_mem_replicate hc]
    decide
  · show List.replicate (2 - (natStr n).data.length) '0' ++ (natStr n).data ≠ []
    simp [hne]

theorem renderTok_classes (t : DTok) {y m d : Nat} (hm1 : 1 ≤ m) (hm2 : m ≤ 12) :
    (renderTok y m d t).data.all (fun c => jsIsDigit c || jsIsAlpha c) = true ∧
      (renderTok y m d t).data ≠ [] := by
  cases t with
  | DD => exact ⟨all_or_of_left (pad2_all d).1, (pad2_all d).2⟩
  | MM => exact ⟨all_or_of_left (pad2_all m).1, (pad2_all m).2⟩
  | YYYY => exact ⟨all_or_of_left (natStr_spec y).1, (natStr_spec y).2.2⟩
  | YY => exact ⟨all_or_of_left (pad2_all (y % 100)).1, (pad2_all (y % 100)).2⟩
  | MMM =>
    obtain ⟨_, ha, _, hne⟩ := monthAbbr_facts hm1 hm2
    exact ⟨all_or_of_right ha, hne⟩
  | MMMM =>
    obtain ⟨ha, _, hne⟩ := monthFull_lookup hm1 hm2
    exact ⟨all_or_of_right ha, hne⟩

theorem class_not_sep {c : Char} (h : (jsIsDigit c || jsIsAlpha c) = true) {sep : Char}
    (hsep : sep = '-' ∨ sep = '/') : c ≠ sep := by
  intro he
  rw [he] at h
  have hs := sepChar_of_or hsep
  rcases (by simpa using h : jsIsDigit sep = true ∨ jsIsAlpha sep = true) with h1 | h1
  · rw [(isDigit_char_facts h1).2.2.2.1] at hs
    exact Bool.noConfusion hs
  · rw [(isAlpha_char_facts h1).2.2.2.1] at hs
    exact Bool.noConfusion hs

theorem class_not_dot {c : Char} (h : (jsIsDigit c || jsIsAlpha c) = true) : c ≠ '.' := by
  rcases (by simpa using h : jsIsDigit c = true ∨ jsIsAlpha c = true) with h1 | h1
  · exact of_decide_eq_false (isDigit_char_facts h1).2.2.2.2.1
  · exact of_decide_eq_false (isAlpha_char_facts h1).2.2.2.2.1

theorem joinSep_data_mem {sep : String} {chunks : List String} {c : Char} :
    c ∈ (joinSep sep chunks).data → c ∈ sep.data ∨ ∃ ch ∈ chunks, c ∈ ch.data := by
  induction chunks with
  | nil =>
    intro h
    simp [joinSep] at h
  | cons x xs ih =>
    intro h
    cases xs with
    | nil =>
      exact Or.inr ⟨x, List.mem_cons_self _ _, h⟩
    | cons y rest =>
      rw [joinSep_cons_cons, String.data_append, String.data_append] at h
      rcases List.mem_append.1 h with h1 | h1
      · rcases List.mem_append.1 h1 with h2 | h2
        · exact Or.inr ⟨x, List.mem_cons_self _ _, h2⟩
        · exact Or.inl h2
      · rcases ih h1 with h2 | ⟨ch, hch, hc⟩
        · exact Or.inl h2
        · exact Or.inr ⟨ch, List.mem_cons_of_mem _ hch, hc⟩

theorem map_asString_data (chunks : List String) :
    (chunks.map String.data).map List.asString = chunks := by
  induction chunks with
  | nil => rfl
  | cons x xs ih => simp [ih, data_asString]

/-! ## The round-trip -/

theorem finishParse_some {dv mv yv : Int} (hd : dv ≠ 0) (hm : mv ≠ 0) (hy : yv ≠ 0) :
    finishParse (some dv) (some mv) (some yv) =
      if checkCalendar yv mv dv then some (yv.toNat, mv.toNat, dv.toNat) else none := by
  unfold finishParse
  rw [jsFalsy_some, jsFalsy_some, jsFalsy_some, decide_eq_false hd, decide_eq_false hm,
    decide_eq_false hy]
  simp

theorem parse_render_roundTrip {toks : List DTok} {sep : Char} {y m d : Nat}
    (hsep : sep = '-' ∨ sep = '/')
    (hday : ∃ t ∈ toks, tokType t = FType.day)
    (hmon : ∃ t ∈ toks, tokType t = FType.month)
    (hyear : ∃ t ∈ toks, tokType t = FType.year)
    (hd1 : 1 ≤ d) (hdm : d ≤ daysInMonth y m) (hm1 : 1 ≤ m) (hm2 : m ≤ 12)
    (hy1 : 1000 ≤ y) (hy2 : y ≤ 9999)
    (hYY : DTok.YY ∈ toks → 1950 ≤ y ∧ y ≤ 2049)
    (hMMMM : DTok.MMMM ∈ toks → m ≠ 5) :
    parseDate (getDateFormatInfo (fmtOfToks toks sep)) (renderDate toks sep y m d) =
      some (y, m, d) := by
  have hd31 : d ≤ 31 := le_trans hdm (daysInMonth_le31 y m)
  have hlen2 := two_le_length_of_types hday hmon
  have htoksne : toks ≠ [] := by
    intro h
    subst h
    simp at hlen2
  have hcp := getDateFormatInfo_fmtOfToks hsep hlen2
  have hclasses : ∀ t : DTok,
      (renderTok y m d t).data.all (fun c => jsIsDigit c || jsIsAlpha c) = true ∧
        (renderTok y m d t).data ≠ [] :=
    fun t => renderTok_classes t hm1 hm2
  have hnodot : ∀ c ∈ (renderDate toks sep y m d).data, c ≠ '.' := by
    intro c hc
    rcases joinSep_data_mem hc with h1 | ⟨ch, hch, hc2⟩
    · rw [data_singleton, List.mem_singleton] at h1
      subst h1
      rcases hsep with h | h <;> subst h <;> decide
    · rcases List.mem_map.1 hch with ⟨t, _, rfl⟩
      exact class_not_dot (List.all_eq_true.1 (hclasses t).1 c hc2)
  have hnosep : ∀ ch ∈ toks.map (renderTok y m d), ∀ c ∈ ch.data, c ≠ sep := by
    intro ch hch c hc
    rcases List.mem_map.1 hch with ⟨t, _, rfl⟩
    exact class_not_sep (List.all_eq_true.1 (hclasses t).1 c hc) hsep
  have hclean : replaceFirstMd (renderDate toks sep y m d) = renderDate toks sep y m d := by
    show (removeFirstSub ['.', 'm', 'd'] (renderDate toks sep y m d).data).asString = _
    rw [removeFirstSub_of_no_dot _ hnodot, data_asString]
  have hmatch : regexTest (Compiled.mk (itemsOfToks sep toks) toks (String.singleton sep))
      (renderDate toks sep y m d ++ ".md") = true := by
    show matchItems (itemsOfToks sep toks ++ [RItem.lit '.', RItem.lit 'm', RItem.lit 'd'])
      (renderDate toks sep y m d ++ ".md").data = true
    rw [String.data_append, data_md]
    exact matchItems_render_toks hd1 hd31 hm1 hm2 hy1 hy2 hsep toks htoksne hMMMM _ _
      ⟨'.', ['m', 'd'], rfl, by decide⟩ (by decide)
  have hsegs : ((jsSplit (String.singleton sep) (renderDate toks sep y m d)).filter
      (fun s => s ≠ "")) = toks.map (renderTok y m d) := by
    show (((splitOnChar sep (renderDate toks sep y m d).data).map List.asString).filter
      (fun s => s ≠ "")) = _
    rw [show (renderDate toks sep y m d).data =
        (joinSep (String.singleton sep) (toks.map (renderTok y m d))).data from rfl,
      splitOnChar_joinSep sep _ (fun hmap => htoksne (by simpa using hmap)) hnosep,
      map_asString_data, List.filter_eq_self.mpr]
    intro a ha
    rcases List.mem_map.1 ha with ⟨t, _, rfl⟩
    exact decide_eq_true (fun he => (hclasses t).2 (congrArg String.data he))
  have hAday : toks.any (fun t => decide (tokType t = FType.day)) = true := by
    obtain ⟨t, ht, htt⟩ := hday
    exact List.any_eq_true.mpr ⟨t, ht, by simp [htt]⟩
  have hAmon : toks.any (fun t => decide (tokType t = FType.month)) = true := by
    obtain ⟨t, ht, htt⟩ := hmon
    exact List.any_eq_true.mpr ⟨t, ht, by simp [htt]⟩
  have hAyear : toks.any (fun t => decide (tokType t = FType.year)) = true := by
    obtain ⟨t, ht, htt⟩ := hyear
    exact List.any_eq_true.mpr ⟨t, ht, by simp [htt]⟩
  rw [parseDate, hcp, hclean, if_pos hmatch]
  show (match fieldsLoop toks ((jsSplit (String.singleton sep)
      (renderDate toks sep y m d)).filter (fun s => s ≠ "")) none none none with
    | none => none
    | some r => finishParse r.1 r.2.1 r.2.2) = some (y, m, d)
  rw [hsegs, fieldsLoop_render hd1 hd31 hm1 hm2 hy1 hy2 toks hYY none none none,
    if_pos hAday, if_pos hAmon, if_pos hAyear]
  show finishParse (some (d : Int)) (some (m : Int)) (some (y : Int)) = some (y, m, d)
  rw [finishParse_some (by omega) (by omega) (by omega),
    if_pos (checkCalendar_natCast hd1 hm1 hm2 (by omega) hdm)]
  simp

/-! ## Range invariants of the field loop (C5) -/

theorem bool_false_of_not_true {b : Bool} (h : ¬b = true) : b = false := by
  cases b
  · rfl
  · exact absurd rfl h

theorem processOne_not_match (s : PSettings) (cp : Compiled) (tISO : String) (f : VFile)
    (others : List VFile) (folders : List String) (c : MoveCounts)
    (h : (extOf f.name = "md" && regexTest cp f.name) = false) :
    processOne s cp tISO f others folders c = (f, folders, c) := by
  unfold processOne
  rw [h]
  rfl

theorem processOne_parse_none (s : PSettings) (cp : Compiled) (tISO : String) (f : VFile)
    (others : List VFile) (folders : List String) (c : MoveCounts)
    (hp : parseDate cp (replaceFirstMd f.name) = none) :
    (processOne s cp tISO f others folders c).1 = f ∧
      (processOne s cp tISO f others folders c).2.2.moved = c.moved := by
  unfold processOne
  by_cases hE : (extOf f.name = "md" && regexTest cp f.name) = true
  · rw [if_pos hE, hp]
    exact ⟨rfl, rfl⟩
  · rw [if_neg hE]
    exact ⟨rfl, rfl⟩

theorem processOne_today (s : PSettings) (cp : Compiled) (tISO : String) (f : VFile)
    (others : List VFile) (folders : List String) (c : MoveCounts) {y m d : Nat}
    (hp : parseDate cp (replaceFirstMd f.name) = some (y, m, d)) (ht : isoOf y m d = tISO) :
    (processOne s cp tISO f others folders c).1 = f ∧
      (processOne s cp tISO f others folders c).2.2.moved = c.moved := by
  unfold processOne
  by_cases hE : (extOf f.name = "md" && regexTest cp f.name) = true
  · rw [if_pos hE, hp]
    constructor <;> simp [ht]
  · rw [if_neg hE]
    exact ⟨rfl, rfl⟩

theorem processOne_underT (s : PSettings) (cp : Compiled) (tISO : String) (f : VFile)
    (others : List VFile) (folders : List String) (c : MoveCounts)
    (hu : startsWithStr f.path (s.targetFolder ++ "/") = true) :
    (processOne s cp tISO f others folders c).1 = f ∧
      (processOne s cp tISO f others folders c).2.2.moved = c.moved := by
  unfold processOne
  by_cases hE : (extOf f.name = "md" && regexTest cp f.name) = true
  · rw [if_pos hE]
    rcases hp : parseDate cp (replaceFirstMd f.name) with _ | ⟨yy, mm, dd⟩
    · exact ⟨rfl, rfl⟩
    · by_cases hiso : isoOf yy mm dd ≠ tISO
      · constructor <;> simp [hiso, hu]
      · constructor <;> simp [hiso]
  · rw [if_neg hE]
    exact ⟨rfl, rfl⟩

theorem processOne_renameFail (s : PSettings) (cp : Compiled) (tISO : String) (f : VFile)
    (others : List VFile) (folders : List String) (c : MoveCounts) {y m d : Nat}
    (hp : parseDate cp (replaceFirstMd f.name) = some (y, m, d))
    (hu : ¬startsWithStr f.path (s.targetFolder ++ "/") = true)
    (hrn : renameOk others (destOf s y m f.name) = false) :
    (processOne s cp tISO f others folders c).1 = f ∧
      (processOne s cp tISO f others folders c).2.2.moved = c.moved := by
  unfold processOne
  by_cases hE : (extOf f.name = "md" && regexTest cp f.name) = true
  · rw [if_pos hE, hp]
    by_cases hiso : isoOf y m d ≠ tISO
    · constructor <;> simp [hiso, hu, hrn]
    · constructor <;> simp [hiso]
  · rw [if_neg hE]
    exact ⟨rfl, rfl⟩

theorem processOne_name (s : PSettings) (cp : Compiled) (tISO : String) (f : VFile)
    (others : List VFile) (folders : List String) (c : MoveCounts) :
    (processOne s cp tISO f others folders c).1.name = f.name := by
  unfold processOne
  by_cases hE : (extOf f.name = "md" && regexTest cp f.name) = true
  · rw [if_pos hE]
    rcases hp : parseDate cp (replaceFirstMd f.name) with _ | ⟨yy, mm, dd⟩
    · rfl
    · by_cases hiso : isoOf yy mm dd ≠ tISO
      · by_cases hu : startsWithStr f.path (s.targetFolder ++ "/") = true
        · simp [hiso, hu]
        · by_cases hrn : renameOk others (destOf s yy mm f.name) = true
          · simp [hiso, hu, hrn]
          · simp [hiso, hu, hrn]
      · simp [hiso]
  · rw [if_neg hE]

theorem processOne_main (s : PSettings) (cp : Compiled) (tISO : String) (f : VFile)
    (others : List VFile) (folders : List String) (c : MoveCounts) {y m d : Nat}
    (hE : (extOf f.name = "md" && regexTest cp f.name) = true)
    (hp : parseDate cp (replaceFirstMd f.name) = some (y, m, d))
    (hiso : isoOf y m d ≠ tISO) :
    startsWithStr (processOne s cp tISO f others folders c).1.path
        (s.targetFolder ++ "/") = true ∨
      ((processOne s cp tISO f others folders c).1 = f ∧
        ∃ g ∈ others, g.path = destOf s y m f.name) := by
  unfold processOne
  rw [if_pos hE, hp]
  by_cases hu : startsWithStr f.path (s.targetFolder ++ "/") = true
  · left
    simp [hiso, hu]
  · by_cases hrn : renameOk others (destOf s y m f.name) = true
    · left
      simp only [hiso, hu]
      simp [hiso, hu, hrn, destOf_startsWith]
    · right
      constructor
      · simp [hiso, hu, hrn]
      · have hrn' : renameOk others (destOf s y m f.name) = false := bool_false_of_not_true hrn
        unfold renameOk at hrn'
        by_contra hex
        push_neg at hex
        have hall : others.all (fun g => g.path ≠ destOf s y m f.name) = true := by
          rw [List.all_eq_true]
          intro g hg
          exact decide_eq_true (hex g hg)
        rw [hall] at hrn'
        exact Bool.noConfusion hrn'

/-! ## Traversal lemmas for the archive pass -/

theorem moveGo_mem_done (s : PSettings) (cp : Compiled) (tISO : String) (f : VFile) :
    ∀ (todo done : List VFile) (folders : List String) (c : MoveCounts),
      f ∈ done → f ∈ (moveGo s cp tISO done todo folders c).1.files := by
  intro todo
  induction todo with
  | nil =>
    intro done folders c hf
    exact hf
  | cons g rest ih =>
    intro done folders c hf
    show f ∈ (moveGo s cp tISO
      (done ++ [(processOne s cp tISO g (done ++ rest) folders c).1]) rest
      (processOne s cp tISO g (done ++ rest) folders c).2.1
      (processOne s cp tISO g (done ++ rest) folders c).2.2).1.files
    exact ih _ _ _ (List.mem_append_left _ hf)

theorem moveGo_mem_stay (s : PSettings) (cp : Compiled) (tISO : String) (f : VFile)
    (hstay : ∀ (others : List VFile) (folders : List String) (c : MoveCounts),
      (processOne s cp tISO f others folders c).1 = f) :
    ∀ (todo done : List VFile) (folders : List String) (c : MoveCounts),
      f ∈ todo → f ∈ (moveGo s cp tISO done todo folders c).1.files := by
  intro todo
  induction todo with
  | nil =>
    intro done folders c hf
    exact absurd hf (List.not_mem_nil f)
  | cons g rest ih =>
    intro done folders c hf
    rcases List.mem_cons.1 hf with rfl | hf2
    · show f ∈ (moveGo s cp tISO
        (done ++ [(processOne s cp tISO f (done ++ rest) folders c).1]) rest
        (processOne s cp tISO f (done ++ rest) folders c).2.1
        (processOne s cp tISO f (done ++ rest) folders c).2.2).1.files
      rw [hstay]
      exact moveGo_mem_done s cp tISO f rest _ _ _ (List.mem_append_right _ (by simp))
    · show f ∈ (moveGo s cp tISO
        (done ++ [(processOne s cp tISO g (done ++ rest) folders c).1]) rest
        (processOne s cp tISO g (done ++ rest) folders c).2.1
        (processOne s cp tISO g (done ++ rest) folders c).2.2).1.files
      exact ih _ _ _ hf2

/-- One pass of the archive loop leaves the file list settled. -/
theorem moveGo_settled (s : PSettings) (cp : Compiled) (tISO : String) :
    ∀ (todo done : List VFile) (folders : List String) (c : MoveCounts),
      (∀ f ∈ done, ∀ y m d : Nat,
        (extOf f.name = "md" && regexTest cp f.name) = true →
        parseDate cp (replaceFirstMd f.name) = some (y, m, d) →
        isoOf y m d ≠ tISO →
        startsWithStr f.path (s.targetFolder ++ "/") = true ∨
          ∃ g ∈ done ++ todo, g.path = destOf s y m f.name) →
      settled s cp tISO (moveGo s cp tISO done todo folders c).1.files := by
  intro todo
  induction todo with
  | nil =>
    intro done folders c hinv f hf y m d hE hp hiso
    rcases hinv f hf y m d hE hp hiso with h | ⟨g, hg, hgp⟩
    · exact Or.inl h
    · exact Or.inr ⟨g, by simpa using hg, hgp⟩
  | cons fx rest ih =>
    intro done folders c hinv
    show settled s cp tISO (moveGo s cp tISO
      (done ++ [(processOne s cp tISO fx (done ++ rest) folders c).1]) rest
      (processOne s cp tISO fx (done ++ rest) folders c).2.1
      (processOne s cp tISO fx (done ++ rest) folders c).2.2).1.files
    apply ih
    intro f hf y m d hE hp hiso
    rcases List.mem_append.1 hf with hfdone | hfr1
    · rcases hinv f hfdone y m d hE hp hiso with h | ⟨g, hg, hgp⟩
      · exact Or.inl h
      · rcases List.mem_append.1 hg with hgdone | hgfx
        · exact Or.inr ⟨g, List.mem_append_left _ (List.mem_append_left _ hgdone), hgp⟩
        · rcases List.mem_cons.1 hgfx with rfl | hgrest
          · have hu : startsWithStr g.path (s.targetFolder ++ "/") = true := by
              rw [hgp]
              exact destOf_startsWith s y m f.name
            have hid := (processOne_underT s cp tISO g (done ++ rest) folders c hu).1
            refine Or.inr ⟨(processOne s cp tISO g (done ++ rest) folders c).1,
              List.mem_append_left _ (List.mem_append_right _ (by simp)), ?_⟩
            rw [hid]
            exact hgp
          · exact Or.inr ⟨g, List.mem_append_right _ hgrest, hgp⟩
    · have hfeq : f = (processOne s cp tISO fx (done ++ rest) folders c).1 := by
        simpa using hfr1
      have hname : f.name = fx.name := by
        rw [hfeq]
        exact processOne_name s cp tISO fx (done ++ rest) folders c
      rw [hname] at hE hp
      rcases processOne_main s cp tISO fx (done ++ rest) folders c hE hp hiso with hu |
        ⟨hid, g, hg, hgp⟩
      · rw [hfeq]
        exact Or.inl hu
      · refine Or.inr ⟨g, ?_, ?_⟩
        · rcases List.mem_append.1 hg with h1 | h1
          · exact List.mem_append_left _ (List.mem_append_left _ h1)
          · exact List.mem_append_right _ h1
        · rw [hname]
          exact hgp

/-- On a settled file list the archive loop changes nothing and issues
no moves. -/
theorem moveGo_of_settled (s : PSettings) (cp : Compiled) (tISO : String) :
    ∀ (todo done : List VFile) (folders : List String) (c : MoveCounts),
      settled s cp tISO (done ++ todo) →
      (moveGo s cp tISO done todo folders c).1.files = done ++ todo ∧
        (moveGo s cp tISO done todo folders c).2.moved = c.moved := by
  intro todo
  induction todo with
  | nil =>
    intro done folders c _
    exact ⟨by show done = done ++ []; simp, rfl⟩
  | cons fx rest ih =>
    intro done folders c hs
    have hmemfx : fx ∈ done ++ fx :: rest :=
      List.mem_append_right _ (List.mem_cons_self _ _)
    have hstay : (processOne s cp tISO fx (done ++ rest) folders c).1 = fx ∧
        (processOne s cp tISO fx (done ++ rest) folders c).2.2.moved = c.moved := by
      by_cases hE : (extOf fx.name = "md" && regexTest cp fx.name) = true
      · rcases hp : parseDate cp (replaceFirstMd fx.name) with _ | ⟨yy, mm, dd⟩
        · exact processOne_parse_none s cp tISO fx (done ++ rest) folders c hp
        · by_cases hiso : isoOf yy mm dd ≠ tISO
          · by_cases hu : startsWithStr fx.path (s.targetFolder ++ "/") = true
            · exact processOne_underT s cp tISO fx (done ++ rest) folders c hu
            · rcases hs fx hmemfx yy mm dd hE hp hiso with h | ⟨g, hg, hgp⟩
              · exact absurd h hu
              · have hgne : g ≠ fx := by
                  intro he
                  rw [he] at hgp
                  apply hu
                  rw [hgp]
                  exact destOf_startsWith s yy mm fx.name
                have hg2 : g ∈ done ++ rest := by
                  rcases List.mem_append.1 hg with h1 | h1
                  · exact List.mem_append_left _ h1
                  · rcases List.mem_cons.1 h1 with he | h2
                    · exact absurd he hgne
                    · exact List.mem_append_right _ h2
                have hrn : renameOk (done ++ rest) (destOf s yy mm fx.name) = false := by
                  unfold renameOk
                  cases hb : (done ++ rest).all (fun g => g.path ≠ destOf s yy mm fx.name)
                  · rfl
                  · have := List.all_eq_true.1 hb g hg2
                    exact absurd hgp (of_decide_eq_true this)
                exact processOne_renameFail s cp tISO fx (done ++ rest) folders c hp hu hrn
          · push_neg at hiso
            exact processOne_today s cp tISO fx (done ++ rest) folders c hp hiso
      · rw [processOne_not_match s cp tISO fx (done ++ rest) folders c
          (bool_false_of_not_true hE)]
        exact ⟨rfl, rfl⟩
    obtain ⟨hid, hmv⟩ := hstay
    have hs2 : settled s cp tISO ((done ++ [fx]) ++ rest) := by
      rw [List.append_assoc, List.singleton_append]
      exact hs
    have hrec := ih (done ++ [(processOne s cp tISO fx (done ++ rest) folders c).1])
      (processOne s cp tISO fx (done ++ rest) folders c).2.1
      (processOne s cp tISO fx (done ++ rest) folders c).2.2 (by rw [hid]; exact hs2)
    constructor
    · show (moveGo s cp tISO
        (done ++ [(processOne s cp tISO fx (done ++ rest) folders c).1]) rest
        (processOne s cp tISO fx (done ++ rest) folders c).2.1
        (processOne s cp tISO fx (done ++ rest) folders c).2.2).1.files =
          done ++ fx :: rest
      rw [hrec.1, hid, List.append_assoc, List.singleton_append]
    · show (moveGo s cp tISO
        (done ++ [(processOne s cp tISO fx (done ++ rest) folders c).1]) rest
        (processOne s cp tISO fx (done ++ rest) folders c).2.1
        (processOne s cp tISO fx (done ++ rest) folders c).2.2).2.moved = c.moved
      rw [hrec.2, hmv]

/-! ## Traversal lemma for the relocation pass -/

theorem matchItems_d2_false {a b : Char} (hb : jsIsDigit b = false) (rest : List RItem)
    (cs : List Char) : matchItems (.d2 :: rest) (a :: b :: cs) = false := by
  simp [matchItems, hb]

theorem matchItems_d2_pair {a b : Char} (ha : jsIsDigit a = true) (hb : jsIsDigit b = true)
    (rest : List RItem) (cs : List Char) :
    matchItems (.d2 :: rest) (a :: b :: cs) = matchItems rest cs := by
  simp [matchItems, ha, hb]

/-! ## The field loop on an unknown month name -/

/-- Claim C1 counterexample: a file dated exactly 2 December 2020 is skipped
by the whole-vault archive pass run on that same day, but the legacy-folder
relocation pass has no same-day comparison and moves it out of
`Old Daily Notes/` anyway — the two operations do not share the skip
decision. -/
theorem c1_counterexample :
    parseDate (getDateFormatInfo "DD-MM-YYYY") "02-12-2020" = some (2020, 12, 2) ∧
    (moveOldDailyNotes ⟨"Archive", "DD-MM-YYYY", false, true⟩ (2020, 12, 2)
      ⟨[⟨"02-12-2020.md", "Old Daily Notes/02-12-2020.md"⟩], ["Old Daily Notes"]⟩).2.moved
      = 0 ∧
    (relocateOldNotes ⟨"Archive", "DD-MM-YYYY", false, true⟩
      ⟨[⟨"02-12-2020.md", "Old Daily Notes/02-12-2020.md"⟩], ["Old Daily Notes"]⟩).1.files
      = [⟨"02-12-2020.md", "Archive/02-12-2020.md"⟩] ∧
    (relocateOldNotes ⟨"Archive", "DD-MM-YYYY", false, true⟩
      ⟨[⟨"02-12-2020.md", "Old Daily Notes/02-12-2020.md"⟩], ["Old Daily Notes"]⟩).2 = 1 := by
  refine ⟨by decide, by decide, by decide, by decide⟩

/-- Claim C1 amended: in the whole-vault archive pass (`moveOldDailyNotes`)
a file whose parsed date equals today's (year, month, day) is never moved,
for every format and subfolder mode; the legacy-folder relocation pass
applies no such skip (see the counterexample). -/
theorem c1_amended (s : PSettings) (y m d : Nat) (v : Vault) (f : VFile)
    (hf : f ∈ v.files)
    (hp : parseDate (getDateFormatInfo s.dateFormat) (replaceFirstMd f.name) =
      some (y, m, d)) :
    f ∈ (moveOldDailyNotes s (y, m, d) v).1.files := by
  show f ∈ (moveGo s (getDateFormatInfo s.dateFormat) (isoOf y m d) [] v.files
    (ensureFolder v.folders s.targetFolder) ⟨0, 0, 0⟩).1.files
  refine moveGo_mem_stay s (getDateFormatInfo s.dateFormat) (isoOf y m d) f ?_ v.files []
    (ensureFolder v.folders s.targetFolder) ⟨0, 0, 0⟩ hf
  intro others folders c
  exact (processOne_today s (getDateFormatInfo s.dateFormat) (isoOf y m d) f others folders
    c hp rfl).1

/-- Claim C1 witness: the amended statement at a concrete vault holding one
file dated 15 July 2019, archived on that same day. -/
theorem c1_witness :
    (⟨"15-07-2019.md", "Notes/15-07-2019.md"⟩ : VFile) ∈
      (moveOldDailyNotes ⟨"Archive", "DD-MM-YYYY", false, true⟩ (2019, 7, 15)
        ⟨[⟨"15-07-2019.md", "Notes/15-07-2019.md"⟩], []⟩).1.files :=
  c1_amended ⟨"Archive", "DD-MM-YYYY", false, true⟩ 2019 7 15
    ⟨[⟨"15-07-2019.md", "Notes/15-07-2019.md"⟩], []⟩
    ⟨"15-07-2019.md", "Notes/15-07-2019.md"⟩ (by decide) (by decide)

/-- Claim C2 counterexample: the settings-tab text field stores any
non-empty value unvalidated, so an invalid `dateFormat` such as "hello"
survives to matching (it compiles with no recognized token and finds
nothing) instead of being replaced by the default. -/
theorem c2_counterexample :
    settingsTabDateFormatOnChange "hello" = "hello" ∧
    isValidDateFormat "hello" = false ∧
    (getDateFormatInfo "hello").parts = [] ∧
    (moveOldDailyNotes ⟨"Archive", "hello", false, true⟩ (2020, 1, 1)
      ⟨[⟨"15-07-2019.md", "Notes/15-07-2019.md"⟩], []⟩).2.found = 0 ∧
    (moveOldDailyNotes ⟨"Archive", "DD-MM-YYYY", false, true⟩ (2020, 1, 1)
      ⟨[⟨"15-07-2019.md", "Notes/15-07-2019.md"⟩], []⟩).2.found = 1 := by
  refine ⟨rfl, by decide, by decide, by decide, by decide⟩

/-- Claim C2 amended: the `onload` validation establishes the invariant for
persisted values (its output always passes `isValidDateFormat`), but the
settings tab replaces only the empty string by the default; every other
value, valid or not, is stored exactly as typed. -/
theorem c2_amended :
    (∀ f : String, isValidDateFormat (onloadValidateFormat f) = true) ∧
    settingsTabDateFormatOnChange "" = "DD-MM-YYYY" ∧
    (∀ v : String, v ≠ "" → settingsTabDateFormatOnChange v = v) := by
  refine ⟨?_, rfl, ?_⟩
  · intro f
    unfold onloadValidateFormat
    by_cases h : isValidDateFormat f = true
    · rw [if_pos h]
      exact h
    · rw [if_neg h]
      decide
  · intro v hv
    unfold settingsTabDateFormatOnChange
    rw [if_neg hv]

/-- Claim C3 counterexample: the compile-parse round-trip fails on valid
rendered dates: the `MMMM` sub-pattern requires at least four letters, so
the rendered month name "May" never matches, and a `YY` format resolves
every two-digit year into 1950-2049, so the rendering of 1930 parses back
to 2030. -/
theorem c3_counterexample :
    renderDate [DTok.DD, DTok.MMMM, DTok.YYYY] '-' 2019 5 15 = "15-May-2019" ∧
    parseDate (getDateFormatInfo (fmtOfToks [DTok.DD, DTok.MMMM, DTok.YYYY] '-'))
      "15-May-2019" = none ∧
    renderDate [DTok.DD, DTok.MM, DTok.YY] '-' 1930 7 15 = "15-07-30" ∧
    parseDate (getDateFormatInfo (fmtOfToks [DTok.DD, DTok.MM, DTok.YY] '-')) "15-07-30" =
      some (2030, 7, 15) := by
  refine ⟨by decide, by decide, by decide, by decide⟩

/-- Claim C3 amended: the round-trip holds for every token-grammar format
containing a day, a month and a year token, on every calendar-valid date,
provided additionally that the year lies in 1950-2049 when a `YY` token is
used and the month is not May when an `MMMM` token is used. -/
theorem c3_amended {toks : List DTok} {sep : Char} {y m d : Nat}
    (hsep : sep = '-' ∨ sep = '/')
    (hday : ∃ t ∈ toks, tokType t = FType.day)
    (hmon : ∃ t ∈ toks, tokType t = FType.month)
    (hyear : ∃ t ∈ toks, tokType t = FType.year)
    (hd1 : 1 ≤ d) (hdm : d ≤ daysInMonth y m) (hm1 : 1 ≤ m) (hm2 : m ≤ 12)
    (hy1 : 1000 ≤ y) (hy2 : y ≤ 9999)
    (hYY : DTok.YY ∈ toks → 1950 ≤ y ∧ y ≤ 2049)
    (hMMMM : DTok.MMMM ∈ toks → m ≠ 5) :
    parseDate (getDateFormatInfo (fmtOfToks toks sep)) (renderDate toks sep y m d) =
      some (y, m, d) :=
  parse_render_roundTrip hsep hday hmon hyear hd1 hdm hm1 hm2 hy1 hy2 hYY hMMMM

/-- Claim C3 witness: the amended round-trip at format `DD-MM-YYYY` on
15 July 2019. -/
theorem c3_witness :
    parseDate (getDateFormatInfo (fmtOfToks [DTok.DD, DTok.MM, DTok.YYYY] '-'))
      (renderDate [DTok.DD, DTok.MM, DTok.YYYY] '-' 2019 7 15) = some (2019, 7, 15) :=
  c3_amended (Or.inl rfl) ⟨DTok.DD, by decide, rfl⟩ ⟨DTok.MM, by decide, rfl⟩
    ⟨DTok.YYYY, by decide, rfl⟩ (by decide) (by decide) (by decide) (by decide)
    (by decide) (by decide) (fun h => absurd h (by decide)) (fun h => absurd h (by decide))

/-- Claim C4: under the `YY` token of format `DD-MM-YY`, a two-digit value
v resolves to 2000 + v when v < 50 and to 1900 + v otherwise, and the
resolved year passes the 1000-9999 range check. -/
theorem c4_theorem (v : Nat) (hv : v < 100) :
    parseDate (getDateFormatInfo "DD-MM-YY") ("15-06-" ++ pad2 v) =
      some ((if v < 50 then 2000 + v else 1900 + v), 6, 15) ∧
    1000 ≤ (if v < 50 then 2000 + v else 1900 + v) ∧
    (if v < 50 then 2000 + v else 1900 + v) ≤ 9999 := by
  set y := if v < 50 then 2000 + v else 1900 + v with hy
  have hy100 : y % 100 = v := by
    rw [hy]
    split_ifs <;> omega
  have hy1950 : 1950 ≤ y := by
    rw [hy]
    split_ifs <;> omega
  have hy2049 : y ≤ 2049 := by
    rw [hy]
    split_ifs <;> omega
  have hfmt : fmtOfToks [DTok.DD, DTok.MM, DTok.YY] '-' = "DD-MM-YY" := by decide
  have hrd : renderDate [DTok.DD, DTok.MM, DTok.YY] '-' y 6 15 = "15-06-" ++ pad2 v := by
    unfold renderDate
    rw [List.map_cons, List.map_cons, List.map_cons, List.map_nil, joinSep_cons_cons,
      joinSep_cons_cons]
    show pad2 15 ++ String.singleton '-' ++
      (pad2 6 ++ String.singleton '-' ++ pad2 (y % 100)) = "15-06-" ++ pad2 v
    rw [hy100]
    apply String.ext
    rfl
  have h := @parse_render_roundTrip [DTok.DD, DTok.MM, DTok.YY] '-' y 6 15
    (Or.inl rfl) ⟨DTok.DD, by decide, rfl⟩ ⟨DTok.MM, by decide, rfl⟩
    ⟨DTok.YY, by decide, rfl⟩ (by decide) (by norm_num [daysInMonth]) (by decide)
    (by decide) (by omega) (by omega) (fun _ => ⟨hy1950, hy2049⟩)
    (fun hmem => absurd hmem (by decide))
  rw [hfmt, hrd] at h
  exact ⟨h, by omega, by omega⟩

/-- Claim C4 witness: the spec's four sample resolutions, YY = 20, 99, 49
and 50. -/
theorem c4_witness :
    parseDate (getDateFormatInfo "DD-MM-YY") ("15-06-" ++ pad2 20) = some (2020, 6, 15) ∧
    parseDate (getDateFormatInfo "DD-MM-YY") ("15-06-" ++ pad2 99) = some (1999, 6, 15) ∧
    parseDate (getDateFormatInfo "DD-MM-YY") ("15-06-" ++ pad2 49) = some (2049, 6, 15) ∧
    parseDate (getDateFormatInfo "DD-MM-YY") ("15-06-" ++ pad2 50) = some (1950, 6, 15) :=
  ⟨(c4_theorem 20 (by decide)).1, (c4_theorem 99 (by decide)).1,
    (c4_theorem 49 (by decide)).1, (c4_theorem 50 (by decide)).1⟩

/-- Claim C6: the file `15-07-2019.md` under `DD-MM-YYYY` with target
folder `Archive` is moved to `Archive/2019/07/15-07-2019.md` in
year/month-subfolder mode, creating `Archive/2019` and `Archive/2019/07`
exactly when absent (the month zero-padded to two digits), and to
`Archive/15-07-2019.md` in flat mode. -/
theorem c6_theorem :
    (moveOldDailyNotes ⟨"Archive", "DD-MM-YYYY", true, true⟩ (2020, 1, 1)
      ⟨[⟨"15-07-2019.md", "Notes/15-07-2019.md"⟩], []⟩).1.files =
      [⟨"15-07-2019.md", "Archive/2019/07/15-07-2019.md"⟩] ∧
    (moveOldDailyNotes ⟨"Archive", "DD-MM-YYYY", true, true⟩ (2020, 1, 1)
      ⟨[⟨"15-07-2019.md", "Notes/15-07-2019.md"⟩], []⟩).1.folders =
      ["Archive", "Archive/2019", "Archive/2019/07"] ∧
    (moveOldDailyNotes ⟨"Archive", "DD-MM-YYYY", true, true⟩ (2020, 1, 1)
      ⟨[⟨"15-07-2019.md", "Notes/15-07-2019.md"⟩],
        ["Archive", "Archive/2019", "Archive/2019/07"]⟩).1.folders =
      ["Archive", "Archive/2019", "Archive/2019/07"] ∧
    (moveOldDailyNotes ⟨"Archive", "DD-MM-YYYY", false, true⟩ (2020, 1, 1)
      ⟨[⟨"15-07-2019.md", "Notes/15-07-2019.md"⟩], []⟩).1.files =
      [⟨"15-07-2019.md", "Archive/15-07-2019.md"⟩] := by
  refine ⟨by decide, by decide, by decide, by decide⟩

/-- Claim C7: a file already under `targetFolder/` is left in place by the
archive pass, and running the archive pass twice in succession moves zero
files the second time. -/
theorem c7_theorem (s : PSettings) (today : Nat × Nat × Nat) (v : Vault) :
    (∀ f ∈ v.files, startsWithStr f.path (s.targetFolder ++ "/") = true →
      f ∈ (moveOldDailyNotes s today v).1.files) ∧
    (moveOldDailyNotes s today (moveOldDailyNotes s today v).1).2.moved = 0 := by
  constructor
  · intro f hf hu
    show f ∈ (moveGo s (getDateFormatInfo s.dateFormat)
      (isoOf today.1 today.2.1 today.2.2) [] v.files
      (ensureFolder v.folders s.targetFolder) ⟨0, 0, 0⟩).1.files
    refine moveGo_mem_stay s (getDateFormatInfo s.dateFormat)
      (isoOf today.1 today.2.1 today.2.2) f ?_ v.files []
      (ensureFolder v.folders s.targetFolder) ⟨0, 0, 0⟩ hf
    intro others folders c
    exact (processOne_underT s (getDateFormatInfo s.dateFormat)
      (isoOf today.1 today.2.1 today.2.2) f others folders c hu).1
  · have hset : settled s (getDateFormatInfo s.dateFormat)
        (isoOf today.1 today.2.1 today.2.2)
        (moveGo s (getDateFormatInfo s.dateFormat) (isoOf today.1 today.2.1 today.2.2)
          [] v.files (ensureFolder v.folders s.targetFolder) ⟨0, 0, 0⟩).1.files := by
      refine moveGo_settled s (getDateFormatInfo s.dateFormat)
        (isoOf today.1 today.2.1 today.2.2) v.files []
        (ensureFolder v.folders s.targetFolder) ⟨0, 0, 0⟩ ?_
      intro f hf
      exact absurd hf (List.not_mem_nil f)
    have h2 := moveGo_of_settled s (getDateFormatInfo s.dateFormat)
      (isoOf today.1 today.2.1 today.2.2)
      (moveGo s (getDateFormatInfo s.dateFormat) (isoOf today.1 today.2.1 today.2.2)
        [] v.files (ensureFolder v.folders s.targetFolder) ⟨0, 0, 0⟩).1.files []
      (ensureFolder (moveGo s (getDateFormatInfo s.dateFormat)
        (isoOf today.1 today.2.1 today.2.2) [] v.files
        (ensureFolder v.folders s.targetFolder) ⟨0, 0, 0⟩).1.folders s.targetFolder)
      ⟨0, 0, 0⟩ hset
    exact h2.2

/-- Claim C8: the compiler's error recovery diverges instead of falling
back: on a truthy non-string `settings.dateFormat` (where `format.split`
throws) the catch re-invokes the parameterless method on the unchanged
settings value, so no stack depth suffices for the call to return, while a
string-valued format never reaches the catch at all. -/
theorem c8_theorem :
    (∀ fuel : Nat, getDateFormatInfoCall fuel (JsVal.numVal 5) = none) ∧
    (∀ (fuel : Nat) (s : String),
      getDateFormatInfoCall (fuel + 1) (JsVal.str s) = some (getDateFormatInfo s)) := by
  constructor
  · intro fuel
    induction fuel with
    | zero => rfl
    | succ n ih =>
      show getDateFormatInfoCall n (JsVal.numVal 5) = none
      exact ih
  · intro fuel s
    rfl

/-- Claim C10: the `DD` and `MM` sub-patterns require exactly two digits: a
name whose second character is not a digit never matches `DD-MM-YYYY`, nor
does one with a one-digit month segment; concretely `2-12-2020.md` is not
matched, not counted as found, and left untouched by both operations. -/
theorem c10_theorem :
    (∀ (a b : Char) (cs : List Char), jsIsDigit b = false →
      regexTest (getDateFormatInfo "DD-MM-YYYY") ⟨a :: b :: cs⟩ = false) ∧
    (∀ (a b x c : Char) (cs : List Char), jsIsDigit a = true → jsIsDigit b = true →
      jsIsDigit c = false →
      regexTest (getDateFormatInfo "DD-MM-YYYY") ⟨a :: b :: '-' :: x :: c :: cs⟩ = false) ∧
    regexTest (getDateFormatInfo "DD-MM-YYYY") "2-12-2020.md" = false ∧
    (moveOldDailyNotes ⟨"Archive", "DD-MM-YYYY", false, true⟩ (2021, 1, 1)
      ⟨[⟨"2-12-2020.md", "Notes/2-12-2020.md"⟩], []⟩).1.files =
      [⟨"2-12-2020.md", "Notes/2-12-2020.md"⟩] ∧
    (moveOldDailyNotes ⟨"Archive", "DD-MM-YYYY", false, true⟩ (2021, 1, 1)
      ⟨[⟨"2-12-2020.md", "Notes/2-12-2020.md"⟩], []⟩).2.found = 0 ∧
    (relocateOldNotes ⟨"Archive", "DD-MM-YYYY", false, true⟩
      ⟨[⟨"2-12-2020.md", "Old Daily Notes/2-12-2020.md"⟩], []⟩).1.files =
      [⟨"2-12-2020.md", "Old Daily Notes/2-12-2020.md"⟩] := by
  have hitems : (getDateFormatInfo "DD-MM-YYYY").items ++
      [RItem.lit '.', RItem.lit 'm', RItem.lit 'd'] =
      [RItem.d2, RItem.lit '-', RItem.d2, RItem.lit '-', RItem.d4,
        RItem.lit '.', RItem.lit 'm', RItem.lit 'd'] := by decide
  refine ⟨?_, ?_, by decide, by decide, by decide, by decide⟩
  · intro a b cs hb
    unfold regexTest
    rw [hitems]
    exact matchItems_d2_false hb _ _
  · intro a b x c cs ha hb hc
    unfold regexTest
    rw [hitems]
    show matchItems
      (RItem.d2 :: RItem.lit '-' :: RItem.d2 :: RItem.lit '-' :: RItem.d4 ::
        RItem.lit '.' :: RItem.lit 'm' :: RItem.lit 'd' :: [])
      (a :: b :: '-' :: x :: c :: cs) = false
    rw [matchItems_d2_pair ha hb, matchItems_lit_cons]
    exact matchItems_d2_false hc _ _

end DNM
